import Mathlib

/-!
Verification of the indexation engine of the bank-statement-app repository
(file src/indexation_app.py).

Decimal values are embedded as exact rationals.  Python Decimal quantize
operations are modelled explicitly: quantize to 0.01 with ROUND_HALF_UP is
quantize2, quantize to 0.0001 with the default context rounding
ROUND_HALF_EVEN is the quantization inside monthly_factor.  Python dates
are triples (year, month, day) ordered lexicographically, as datetime.date
compares.  A Python dict lookup that may raise KeyError is embedded as an
Except value carrying the missing key; the while-True month walks of the
source terminate exactly when the start month is at or before the end
month (the callers guard start_date <= end_date), which the embedding
expresses by handing the loop the exact number of month steps it needs.
-/

/-- Calendar date, compared lexicographically like datetime.date. -/
structure Date where
  year : Nat
  month : Nat
  day : Nat
deriving DecidableEq

def Date.le (a b : Date) : Prop :=
  a.year < b.year ∨ (a.year = b.year ∧ (a.month < b.month ∨ (a.month = b.month ∧ a.day ≤ b.day)))

def Date.lt (a b : Date) : Prop :=
  a.year < b.year ∨ (a.year = b.year ∧ (a.month < b.month ∨ (a.month = b.month ∧ a.day < b.day)))

instance : LE Date := ⟨Date.le⟩

instance : LT Date := ⟨Date.lt⟩

instance decDateLE (a b : Date) : Decidable (a ≤ b) :=
  inferInstanceAs (Decidable (a.year < b.year ∨ (a.year = b.year ∧ (a.month < b.month ∨ (a.month = b.month ∧ a.day ≤ b.day)))))

instance decDateLT (a b : Date) : Decidable (a < b) :=
  inferInstanceAs (Decidable (a.year < b.year ∨ (a.year = b.year ∧ (a.month < b.month ∨ (a.month = b.month ∧ a.day < b.day)))))

/-- Python min of two dates (value of min(a, b)). -/
def Date.min (a b : Date) : Date := if a ≤ b then a else b

/-- Python Decimal ROUND_HALF_UP to an integer: ties go away from zero. -/
def roundHalfUp (x : ℚ) : ℤ := if 0 ≤ x then ⌊x + 1/2⌋ else -⌊-x + 1/2⌋

/-- Embeds value.quantize(Decimal("0.01"), rounding=ROUND_HALF_UP). -/
def quantize2 (x : ℚ) : ℚ := (roundHalfUp (100 * x) : ℚ) / 100

/-- Python Decimal ROUND_HALF_EVEN to an integer (default context rounding). -/
def roundHalfEven (x : ℚ) : ℤ :=
  if x - ⌊x⌋ < 1/2 then ⌊x⌋
  else if 1/2 < x - ⌊x⌋ then ⌊x⌋ + 1
  else if ⌊x⌋ % 2 = 0 then ⌊x⌋ else ⌊x⌋ + 1

/-- Embeds calendar.monthrange(year, month)[1] (Gregorian month lengths). -/
def isLeap (y : Nat) : Bool := (y % 4 == 0 && y % 100 != 0) || (y % 400 == 0)

def days_in_month (y m : Nat) : Nat :=
  if m = 2 then (if isLeap y then 29 else 28)
  else if m = 4 ∨ m = 6 ∨ m = 9 ∨ m = 11 then 30
  else 31

/-- Embeds next_month from src/indexation_app.py. -/
def next_month (y m : Nat) : Nat × Nat := if m = 12 then (y + 1, 1) else (y, m + 1)

/-- Embeds date + datetime.timedelta(days=1) for calendar dates. -/
def nextDay (d : Date) : Date :=
  if d.day < days_in_month d.year d.month then ⟨d.year, d.month, d.day + 1⟩
  else if d.month < 12 then ⟨d.year, d.month + 1, 1⟩
  else ⟨d.year + 1, 1, 1⟩

/-- Wellformedness of a calendar date. -/
def Date.valid (d : Date) : Prop :=
  1 ≤ d.month ∧ d.month ≤ 12 ∧ 1 ≤ d.day ∧ d.day ≤ days_in_month d.year d.month

/-- CPI table: association list from (year, month) to the index value,
embedding the cpi_map dict built by load_cpi_from_sheet. -/
abbrev CpiMap := List ((Nat × Nat) × ℚ)

def cpiLookup (cpi : CpiMap) (y m : Nat) : Option ℚ :=
  match cpi with
  | [] => none
  | r :: rest => if r.1 = (y, m) then some r.2 else cpiLookup rest y m

/-- Error outcomes of the month walks: a KeyError on the CPI dict carrying
the missing key, or exhaustion of the step budget (never reached when the
walk is started with the exact number of months, see the walk lemmas). -/
inductive CalcErr where
  | missing (y m : Nat)
  | noFuel
deriving DecidableEq

/-- Embeds monthly_factor: (cpi_value / 100).quantize(Decimal("0.0001")),
quantized with the context default ROUND_HALF_EVEN. -/
def monthly_factor (cpi_value : ℚ) : ℚ := (roundHalfEven (10000 * (cpi_value / 100)) : ℚ) / 10000

/-- One row of the monthly breakdown of compute_period_exact. -/
structure MonthSlice where
  year : Nat
  month : Nat
  days : ℤ
  total_days : Nat
  cpi : ℚ
  factor : ℚ
  increment : ℚ

/-- Linear position of a month on the calendar line. -/
def monthIndex (y m : Nat) : Nat := 12 * y + m

/-- Body of the while-True loop of compute_period_exact.  The Nat argument
is the number of month steps still to be taken after the current month;
the source loop breaks after processing the end month, and the callers
start the walk at the start month with exactly the month distance. -/
def loopExact (cpi : CpiMap) (s e : Date) :
    Nat → Nat × Nat → ℚ → ℚ → List MonthSlice → Except CalcErr (ℚ × List MonthSlice)
  | n, (y, m), curr, total, acc =>
    match cpiLookup cpi y m with
    | none => .error (.missing y m)
    | some cpiv =>
      let dim := days_in_month y m
      let factor_full := monthly_factor cpiv
      let start_d : ℤ := if y = s.year ∧ m = s.month then (s.day : ℤ) else 1
      let end_d : ℤ := if y = e.year ∧ m = e.month then (e.day : ℤ) else (dim : ℤ)
      let days : ℤ := end_d - start_d + 1
      let prop : ℚ := (days : ℚ) / (dim : ℚ)
      let effective_factor : ℚ := 1 + (factor_full - 1) * prop
      let new_amount := quantize2 (curr * effective_factor)
      let increment := new_amount - curr
      let slice : MonthSlice := ⟨y, m, days, dim, cpiv, effective_factor, increment⟩
      if y = e.year ∧ m = e.month then .ok (total + increment, acc ++ [slice])
      else
        match n with
        | 0 => .error .noFuel
        | n' + 1 => loopExact cpi s e n' (next_month y m) new_amount (total + increment) (acc ++ [slice])

/-- Embeds compute_period_exact from src/indexation_app.py. -/
def compute_period_exact (amount : ℚ) (start_date end_date : Date) (cpi : CpiMap) :
    Except CalcErr (ℚ × List MonthSlice) :=
  if amount ≤ 0 ∨ end_date < start_date then .ok (0, [])
  else loopExact cpi start_date end_date
    (monthIndex end_date.year end_date.month - monthIndex start_date.year start_date.month)
    (start_date.year, start_date.month) amount 0 []

/-- Embeds compute_month_factor: F = 1 + ((cpi - 100) / 100) * prop. -/
def compute_month_factor (cpi_value : ℚ) (prop : ℚ) : ℚ :=
  1 + ((cpi_value - 100) / 100) * prop

/-- Body of the while-True loop of compute_indexation_monthly, with the
branch conditions of the source (single month, first month, last month,
full month), accumulating the unrounded product of month factors. -/
def loopMonthly (cpi : CpiMap) (s e : Date) :
    Nat → Nat × Nat → ℚ → Except CalcErr ℚ
  | n, (y, m), total_factor =>
    match cpiLookup cpi y m with
    | none => .error (.missing y m)
    | some cpiv =>
      let dim := days_in_month y m
      if y = s.year ∧ m = s.month ∧ y = e.year ∧ m = e.month then
        .ok (total_factor * compute_month_factor cpiv (((e.day : ℚ) - (s.day : ℚ) + 1) / (dim : ℚ)))
      else if y = s.year ∧ m = s.month then
        match n with
        | 0 => .error .noFuel
        | n' + 1 => loopMonthly cpi s e n' (next_month y m)
            (total_factor * compute_month_factor cpiv (((dim : ℚ) - (s.day : ℚ) + 1) / (dim : ℚ)))
      else if y = e.year ∧ m = e.month then
        .ok (total_factor * compute_month_factor cpiv ((e.day : ℚ) / (dim : ℚ)))
      else
        match n with
        | 0 => .error .noFuel
        | n' + 1 => loopMonthly cpi s e n' (next_month y m)
            (total_factor * compute_month_factor cpiv 1)

/-- Embeds compute_indexation_monthly: the product of the month factors is
applied to the amount and the result is quantized once, at the very end. -/
def compute_indexation_monthly (amount : ℚ) (start_date end_date : Date) (cpi : CpiMap) :
    Except CalcErr ℚ :=
  (loopMonthly cpi start_date end_date
      (monthIndex end_date.year end_date.month - monthIndex start_date.year start_date.month)
      (start_date.year, start_date.month) 1).map
    (fun tf => quantize2 (amount * tf - amount))

/-- Embeds compute_period_indexation, the guard wrapper over
compute_indexation_monthly. -/
def compute_period_indexation (amount : ℚ) (start_date end_date : Date) (cpi : CpiMap) :
    Except CalcErr ℚ :=
  if amount ≤ 0 ∨ end_date < start_date then .ok 0
  else compute_indexation_monthly amount start_date end_date cpi

/-- Payment event of one case: a date and a positive amount.  The source
reads these from the payments sheet already restricted to the case's
registration number; the embedding works with the per-case list. -/
structure Payment where
  date : Date
  amount : ℚ

/-- Period record produced by compute_debt_periods. -/
structure Period where
  period_start : Date
  period_end : Date
  debt_before : ℚ
  payment_date : Option Date
  payment_amount : ℚ
  debt_after_payment : ℚ
  indexation : ℚ

/-- Insertion step of the date sort.  A new element goes in front of the
first element whose date is not smaller, so elements with equal dates keep
their input order (pandas sort_values leaves the order of ties
unspecified; no settled claim depends on the tie order). -/
def insertPay (p : Payment) : List Payment → List Payment
  | [] => [p]
  | q :: qs => if p.date ≤ q.date then p :: q :: qs else q :: insertPay p qs

/-- Ascending stable sort by payment date, embedding pays.sort_values("date"). -/
def sortPays : List Payment → List Payment
  | [] => []
  | p :: ps => insertPay p (sortPays ps)

/-- Qualifying filter of compute_debt_periods:
pays = pays[(pays.date <= cutoff_date) & (pays.amount > 0)]. -/
def qualifies (cutoff : Date) (p : Payment) : Bool :=
  decide (p.date ≤ cutoff) && decide (0 < p.amount)

/-- Main for-loop of compute_debt_periods followed by the tail block: one
period per remaining payment row, then the tail period when the remaining
debt is positive and the window is not exhausted. -/
def debtLoop (cpi : CpiMap) (cutoff : Date) :
    List Payment → ℚ → Date → List Period → Except CalcErr (List Period)
  | [], remaining, current_start, acc =>
    if 0 < remaining ∧ current_start ≤ cutoff then
      match compute_period_indexation remaining current_start cutoff cpi with
      | .error err => .error err
      | .ok ind => .ok (acc ++ [⟨current_start, cutoff, remaining, none, 0, remaining, ind⟩])
    else .ok acc
  | p :: rest, remaining, current_start, acc =>
    let period_end := Date.min p.date cutoff
    match compute_period_indexation remaining current_start period_end cpi with
    | .error err => .error err
    | .ok ind =>
      let new_remaining := remaining - p.amount
      let per : Period :=
        ⟨current_start, period_end, remaining, some p.date, p.amount, new_remaining, ind⟩
      let next_start := nextDay p.date
      if cutoff < next_start then .ok (acc ++ [per])
      else debtLoop cpi cutoff rest new_remaining next_start (acc ++ [per])

/-- Embeds compute_debt_periods from src/indexation_app.py. -/
def compute_debt_periods (order_date : Date) (base_amount : ℚ) (payments : List Payment)
    (cpi : CpiMap) (cutoff_date : Date) : Except CalcErr (List Period) :=
  let pays := sortPays (payments.filter (qualifies cutoff_date))
  match pays with
  | [] =>
    match compute_period_indexation base_amount order_date cutoff_date cpi with
    | .error err => .error err
    | .ok ind => .ok [⟨order_date, cutoff_date, base_amount, none, 0, base_amount, ind⟩]
  | _ :: _ => debtLoop cpi cutoff_date pays base_amount order_date []

/-- Embeds the effective-cutoff computation of process_workbook: the
maximum of the year column and the maximum of the month column are taken
independently, the last day of that (max_year, max_month) pair is formed,
and the requested cutoff is clamped to it. -/
def last_cpi_date (rows : CpiMap) : Date :=
  let max_year := (rows.map (fun r => r.1.1)).foldl Nat.max 0
  let max_month := (rows.map (fun r => r.1.2)).foldl Nat.max 0
  ⟨max_year, max_month, days_in_month max_year max_month⟩

/-- Effective cutoff used by process_workbook for the whole batch and
returned to the caller: min(cutoff_date, last_cpi_date). -/
def process_effective_cutoff (rows : CpiMap) (cutoff_date : Date) : Date :=
  Date.min cutoff_date (last_cpi_date rows)

/-- Months visited by a walk that starts at a month and takes n further
steps: the list has n + 1 entries. -/
def monthsFrom : Nat × Nat → Nat → List (Nat × Nat)
  | ym, 0 => [ym]
  | ym, n + 1 => ym :: monthsFrom (next_month ym.1 ym.2) n

/-- Months visited by the source walks from the month of s to the month of
e inclusive (meaningful when the month of s is not after the month of e). -/
def monthSpan (s e : Date) : List (Nat × Nat) :=
  monthsFrom (s.year, s.month) (monthIndex e.year e.month - monthIndex s.year s.month)

/-- Modelled from the spec: per-month rounded running amount.  The claim's
rounded-chain computation quantizes the running amount to 2 decimal places
with round-half-up after every month step, each month's effective factor
1 + (cpi/100 - 1) * (days/dim) being applied to the rounded amount of the
previous month.  Used to compare compute_period_indexation against the
claim. -/
def specChainGo (cpi : CpiMap) (s e : Date) : List (Nat × Nat) → ℚ → Except CalcErr ℚ
  | [], curr => .ok curr
  | (y, m) :: rest, curr =>
    match cpiLookup cpi y m with
    | none => .error (.missing y m)
    | some v =>
      let dim := days_in_month y m
      let start_d : ℤ := if y = s.year ∧ m = s.month then (s.day : ℤ) else 1
      let end_d : ℤ := if y = e.year ∧ m = e.month then (e.day : ℤ) else (dim : ℤ)
      let eff : ℚ := 1 + (v / 100 - 1) * (((end_d - start_d + 1 : ℤ) : ℚ) / (dim : ℚ))
      specChainGo cpi s e rest (quantize2 (curr * eff))

/-- Modelled from the spec: total increment of the rounded-chain
computation over the walked months. -/
def specRoundedChain (amount : ℚ) (s e : Date) (cpi : CpiMap) : Except CalcErr ℚ :=
  (specChainGo cpi s e (monthSpan s e) amount).map (fun final => final - amount)

/-- Proportion used by the compute_indexation_monthly loop for one visited
month, following the four branch conditions of the source. -/
def monthlyProp (s e : Date) (y m : Nat) : ℚ :=
  if y = s.year ∧ m = s.month ∧ y = e.year ∧ m = e.month then
    ((e.day : ℚ) - (s.day : ℚ) + 1) / (days_in_month y m : ℚ)
  else if y = s.year ∧ m = s.month then
    ((days_in_month y m : ℚ) - (s.day : ℚ) + 1) / (days_in_month y m : ℚ)
  else if y = e.year ∧ m = e.month then
    (e.day : ℚ) / (days_in_month y m : ℚ)
  else 1

/-- Product of the month factors over a list of months, failing on the
first month missing from the CPI table. -/
def factorsProd (cpi : CpiMap) (s e : Date) : List (Nat × Nat) → Except CalcErr ℚ
  | [] => .ok 1
  | (y, m) :: rest =>
    match cpiLookup cpi y m with
    | none => .error (.missing y m)
    | some v => (factorsProd cpi s e rest).map
        (fun tf => compute_month_factor v (monthlyProp s e y m) * tf)

/-- Day count a visited month contributes according to the claims: from
the start day (in the start month, else 1) to the end day (in the end
month, else the month length). -/
def claimDays (s e : Date) (y m : Nat) : ℤ :=
  (if y = e.year ∧ m = e.month then (e.day : ℤ) else (days_in_month y m : ℤ)) -
  (if y = s.year ∧ m = s.month then (s.day : ℤ) else 1) + 1

/-- Effective factor as the claims state it, from the raw CPI value. -/
def claimedFactor (v : ℚ) (days : ℤ) (dim : Nat) : ℚ :=
  1 + (v / 100 - 1) * ((days : ℚ) / (dim : ℚ))

/-- Modelled from the spec: the last calendar date of the latest
(year, month) pair actually present in the CPI table, the clamp value the
spec prescribes for the batch cutoff. -/
def spec_last_present_date (rows : CpiMap) : Date :=
  let best := rows.foldl
    (fun b r => if monthIndex b.1 b.2 < monthIndex r.1.1 r.1.2 then r.1 else b) (0, 0)
  ⟨best.1, best.2, days_in_month best.1 best.2⟩

/-- Modelled from the spec: min(requested cutoff, last date present in the
CPI table). -/
def spec_effective_cutoff (rows : CpiMap) (cutoff_date : Date) : Date :=
  Date.min cutoff_date (spec_last_present_date rows)

/-- Payment events carried by a period list: the (date, amount) pairs of
the periods that record a payment (tail periods record none). -/
def periodEvents (ps : List Period) : List (Date × ℚ) :=
  ps.filterMap (fun p => p.payment_date.map (fun d => (d, p.payment_amount)))

/-- Cuts a payment list after the first payment from which the loop of
compute_debt_periods exits early (the day after the payment date is past
the cutoff). -/
def takeThroughCutoff (cutoff : Date) : List Payment → List Payment
  | [] => []
  | p :: rest => if cutoff < nextDay p.date then [p] else p :: takeThroughCutoff cutoff rest

/-- Wellformedness of one breakdown row with respect to the inputs: the
CPI value is the table entry of its month, the day count follows the
start/end rule of the claims, and the factor is
1 + (monthly_factor cpi - 1) * (days / days_in_month). -/
def sliceWF (cpi : CpiMap) (s e : Date) (slice : MonthSlice) : Prop :=
  cpiLookup cpi slice.year slice.month = some slice.cpi ∧
  slice.total_days = days_in_month slice.year slice.month ∧
  slice.days = claimDays s e slice.year slice.month ∧
  slice.factor = 1 + (monthly_factor slice.cpi - 1) *
    ((slice.days : ℚ) / (slice.total_days : ℚ)) ∧
  (¬(slice.year = s.year ∧ slice.month = s.month) →
   ¬(slice.year = e.year ∧ slice.month = e.month) →
   slice.factor = monthly_factor slice.cpi)

/-- Concrete CPI tables and payment lists used by the concrete runs. -/
def cpiTwo : CpiMap := [((2024, 1), 1001/10), ((2024, 2), 1001/10)]

def cpiFlat : CpiMap := [((2024, 1), 100)]

def cpi84 : CpiMap := [((2024, 1), 10084/100)]

def cpiTiny : CpiMap := [((2024, 1), 20001/200)]

def cpiGap : CpiMap := [((2024, 12), 100), ((2025, 1), 100)]

def paysSameDay : List Payment := [⟨⟨2024, 1, 10⟩, 50⟩, ⟨⟨2024, 1, 10⟩, 30⟩]

def paysOvershoot : List Payment := [⟨⟨2024, 1, 5⟩, 100⟩, ⟨⟨2024, 1, 20⟩, 50⟩]

def paysTwin : List Payment := [⟨⟨2024, 1, 15⟩, 40⟩, ⟨⟨2024, 1, 15⟩, 40⟩]

instance decDateValid (d : Date) : Decidable d.valid := by
  unfold Date.valid
  infer_instance

/-- Evaluation rule for the integer floor of a rational. -/
theorem floorq {q : ℚ} {z : ℤ} (h1 : (z : ℚ) ≤ q) (h2 : q < z + 1) : ⌊q⌋ = z :=
  Int.floor_eq_iff.mpr ⟨h1, h2⟩

/-- Evaluation rule for roundHalfUp on nonnegative inputs. -/
theorem roundHalfUp_eq {x : ℚ} {z : ℤ} (hx : 0 ≤ x)
    (h1 : (z : ℚ) ≤ x + 1/2) (h2 : x + 1/2 < z + 1) : roundHalfUp x = z := by
  unfold roundHalfUp
  rw [if_pos hx]
  exact floorq h1 h2

/-- Evaluation rule for quantize2 on nonnegative inputs. -/
theorem quantize2_eq {x : ℚ} {z : ℤ} (hx : 0 ≤ 100 * x)
    (h1 : (z : ℚ) ≤ 100 * x + 1/2) (h2 : 100 * x + 1/2 < z + 1) :
    quantize2 x = (z : ℚ) / 100 := by
  unfold quantize2
  rw [roundHalfUp_eq hx h1 h2]

/-- Evaluation rule for roundHalfEven below the tie. -/
theorem roundHalfEven_lo {x : ℚ} {z : ℤ} (h1 : (z : ℚ) ≤ x) (h2 : x < (z : ℚ) + 1/2) :
    roundHalfEven x = z := by
  have hf : ⌊x⌋ = z := floorq h1 (by linarith)
  unfold roundHalfEven
  rw [hf, if_pos (by linarith)]

/-- Evaluation rule for roundHalfEven above the tie. -/
theorem roundHalfEven_hi {x : ℚ} {z : ℤ} (h1 : (z : ℚ) + 1/2 < x) (h2 : x < (z : ℚ) + 1) :
    roundHalfEven x = z + 1 := by
  have hf : ⌊x⌋ = z := floorq (by linarith) (by linarith)
  unfold roundHalfEven
  rw [hf, if_neg (by linarith), if_pos (by linarith)]

/-- Evaluation rule for roundHalfEven at a tie whose floor is even. -/
theorem roundHalfEven_tie_even {x : ℚ} {z : ℤ} (h : x = (z : ℚ) + 1/2) (hz : z % 2 = 0) :
    roundHalfEven x = z := by
  have hf : ⌊x⌋ = z := floorq (by rw [h]; linarith) (by rw [h]; linarith)
  unfold roundHalfEven
  rw [hf, if_neg (by rw [h]; linarith), if_neg (by rw [h]; linarith),
    if_pos hz]

theorem Date.le_def {a b : Date} :
    a ≤ b ↔ (a.year < b.year ∨ (a.year = b.year ∧ (a.month < b.month ∨ (a.month = b.month ∧ a.day ≤ b.day)))) :=
  Iff.rfl

theorem Date.lt_def {a b : Date} :
    a < b ↔ (a.year < b.year ∨ (a.year = b.year ∧ (a.month < b.month ∨ (a.month = b.month ∧ a.day < b.day)))) :=
  Iff.rfl

theorem Date.le_refl (a : Date) : a ≤ a := by
  simp [Date.le_def]

theorem Date.not_le {a b : Date} : ¬a ≤ b ↔ b < a := by
  simp only [Date.le_def, Date.lt_def]
  omega

theorem Date.not_lt {a b : Date} : ¬a < b ↔ b ≤ a := by
  simp only [Date.le_def, Date.lt_def]
  omega

theorem Date.le_trans {a b c : Date} (h1 : a ≤ b) (h2 : b ≤ c) : a ≤ c := by
  simp only [Date.le_def] at *
  omega

theorem Date.le_of_lt {a b : Date} (h : a < b) : a ≤ b := by
  simp only [Date.le_def, Date.lt_def] at *
  omega

theorem Date.lt_of_lt_of_le {a b c : Date} (h1 : a < b) (h2 : b ≤ c) : a < c := by
  simp only [Date.le_def, Date.lt_def] at *
  omega

theorem Date.lt_of_le_of_lt {a b c : Date} (h1 : a ≤ b) (h2 : b < c) : a < c := by
  simp only [Date.le_def, Date.lt_def] at *
  omega

theorem Date.lt_irrefl (a : Date) : ¬a < a := by
  simp [Date.lt_def]

theorem Date.le_antisymm {a b : Date} (h1 : a ≤ b) (h2 : b ≤ a) : a = b := by
  obtain ⟨y1, m1, d1⟩ := a
  obtain ⟨y2, m2, d2⟩ := b
  simp only [Date.le_def] at h1 h2
  simp only [Date.mk.injEq]
  omega

theorem Date.le_total (a b : Date) : a ≤ b ∨ b ≤ a := by
  simp only [Date.le_def]
  omega

theorem Date.le_min {c a b : Date} (h1 : c ≤ a) (h2 : c ≤ b) : c ≤ Date.min a b := by
  unfold Date.min
  split
  · exact h1
  · exact h2

theorem Date.min_eq_left {a b : Date} (h : a ≤ b) : Date.min a b = a := by
  unfold Date.min
  rw [if_pos h]

theorem days_in_month_pos (y m : Nat) : 1 ≤ days_in_month y m := by
  unfold days_in_month
  split_ifs <;> omega

theorem Date.lt_nextDay (d : Date) : d < nextDay d := by
  unfold nextDay
  split_ifs <;> simp [Date.lt_def]

theorem nextDay_valid {d : Date} (h : d.valid) : (nextDay d).valid := by
  obtain ⟨hm1, hm2, hd1, hd2⟩ := h
  unfold nextDay
  split_ifs with h1 h2
  · exact ⟨hm1, hm2, Nat.le_succ_of_le hd1, h1⟩
  · exact ⟨Nat.le_succ_of_le hm1, h2, Nat.le_refl 1, days_in_month_pos _ _⟩
  · exact ⟨Nat.le_refl 1, by norm_num, Nat.le_refl 1, days_in_month_pos _ _⟩

theorem Date.nextDay_le_of_lt {a b : Date} (ha : a.valid) (hb : b.valid) (h : a < b) :
    nextDay a ≤ b := by
  obtain ⟨ham1, ham2, had1, had2⟩ := ha
  obtain ⟨hbm1, hbm2, hbd1, hbd2⟩ := hb
  simp only [Date.lt_def] at h
  unfold nextDay
  split_ifs with h1 h2
  · simp only [Date.le_def]
    omega
  · simp only [Date.le_def]
    rcases h with hy | ⟨hy, hm | ⟨hm, hd⟩⟩
    · omega
    · omega
    · exfalso
      have heq : days_in_month b.year b.month = days_in_month a.year a.month := by
        rw [hy, hm]
      omega
  · simp only [Date.le_def]
    rcases h with hy | ⟨hy, hm | ⟨hm, hd⟩⟩
    · omega
    · omega
    · exfalso
      have heq : days_in_month b.year b.month = days_in_month a.year a.month := by
        rw [hy, hm]
      omega

theorem Date.lt_nextDay_iff_le {c d : Date} (hc : c.valid) (hd : d.valid) :
    c < nextDay d ↔ c ≤ d := by
  constructor
  · intro h
    rcases Date.le_total c d with h' | h'
    · exact h'
    · rcases (em (d < c)) with h'' | h''
      · exact absurd (Date.lt_of_lt_of_le h (Date.nextDay_le_of_lt hd hc h''))
          (Date.lt_irrefl c)
      · rw [Date.not_lt] at h''
        exact h''
  · intro h
    exact Date.lt_of_le_of_lt h (Date.lt_nextDay d)

theorem monthIndex_next {y m : Nat} (h1 : 1 ≤ m) (h2 : m ≤ 12) :
    monthIndex (next_month y m).1 (next_month y m).2 = monthIndex y m + 1 := by
  unfold next_month monthIndex
  split_ifs with h
  · subst h
    omega
  · omega

theorem next_month_bounds {y m : Nat} (h1 : 1 ≤ m) (h2 : m ≤ 12) :
    1 ≤ (next_month y m).2 ∧ (next_month y m).2 ≤ 12 := by
  unfold next_month
  split_ifs with h
  · omega
  · omega

theorem monthIndex_inj (y m u w : Nat) (h1 : 1 ≤ m) (h2 : m ≤ 12)
    (h3 : 1 ≤ w) (h4 : w ≤ 12) (h : monthIndex y m = monthIndex u w) :
    y = u ∧ m = w := by
  unfold monthIndex at h
  omega

theorem loopMonthly_eq_factorsProd (cpi : CpiMap) (s e : Date)
    (he1 : 1 ≤ e.month) (he2 : e.month ≤ 12) :
    ∀ n y m tf, 1 ≤ m → m ≤ 12 →
    monthIndex y m + n = monthIndex e.year e.month →
    loopMonthly cpi s e n (y, m) tf =
      (factorsProd cpi s e (monthsFrom (y, m) n)).map (fun p => tf * p) := by
  intro n
  induction n with
  | zero =>
    intro y m tf hm1 hm2 hidx
    obtain ⟨hy, hm⟩ := monthIndex_inj y m e.year e.month hm1 hm2 he1 he2 (by omega)
    unfold loopMonthly monthsFrom factorsProd
    cases hcl : cpiLookup cpi y m with
    | none => rfl
    | some v =>
      unfold factorsProd
      dsimp only
      simp only [monthlyProp, Except.map]
      by_cases hs : y = s.year ∧ m = s.month
      · rw [if_pos ⟨hs.1, hs.2, hy, hm⟩, if_pos ⟨hs.1, hs.2, hy, hm⟩]
        simp only [Except.ok.injEq]
        ring
      · have hcond : ¬(y = s.year ∧ m = s.month ∧ y = e.year ∧ m = e.month) := by
          intro hc
          exact hs ⟨hc.1, hc.2.1⟩
        rw [if_neg hcond, if_neg hs, if_pos ⟨hy, hm⟩, if_neg hcond, if_neg hs,
          if_pos ⟨hy, hm⟩]
        simp only [Except.ok.injEq]
        ring
  | succ n ih =>
    intro y m tf hm1 hm2 hidx
    have hne : ¬(y = e.year ∧ m = e.month) := by
      intro hc
      rw [hc.1, hc.2] at hidx
      omega
    have hnext := monthIndex_next (y := y) hm1 hm2
    have hnb := next_month_bounds (y := y) hm1 hm2
    have hrec : ∀ f : ℚ,
        loopMonthly cpi s e n (next_month y m) f =
          (factorsProd cpi s e (monthsFrom (next_month y m) n)).map (fun p => f * p) := by
      intro f
      have := ih (next_month y m).1 (next_month y m).2 f hnb.1 hnb.2 (by omega)
      simpa using this
    unfold loopMonthly monthsFrom factorsProd
    cases hcl : cpiLookup cpi y m with
    | none => rfl
    | some v =>
      have hcond : ¬(y = s.year ∧ m = s.month ∧ y = e.year ∧ m = e.month) := by
        intro hc
        exact hne ⟨hc.2.2.1, hc.2.2.2⟩
      dsimp only
      rw [if_neg hcond]
      by_cases hs : y = s.year ∧ m = s.month
      · rw [if_pos hs, hrec]
        unfold monthlyProp
        rw [if_neg hcond, if_pos hs]
        cases hrest : factorsProd cpi s e (monthsFrom (next_month y m) n) with
        | error err => simp [Except.map]
        | ok p =>
          simp only [Except.map, Except.ok.injEq]
          ring
      · rw [if_neg hs, if_neg hne, hrec]
        unfold monthlyProp
        rw [if_neg hcond, if_neg hs, if_neg hne]
        cases hrest : factorsProd cpi s e (monthsFrom (next_month y m) n) with
        | error err => simp [Except.map]
        | ok p =>
          simp only [Except.map, Except.ok.injEq]
          ring

theorem monthIndex_le_of_date_le {s e : Date} (hs2 : s.month ≤ 12) (he1 : 1 ≤ e.month)
    (h : s ≤ e) : monthIndex s.year s.month ≤ monthIndex e.year e.month := by
  simp only [Date.le_def] at h
  unfold monthIndex
  omega

/-- Helper: compute_period_indexation as a single quantization of the
amount scaled by the unrounded product of month factors. -/
theorem indexation_eq_product (amount : ℚ) (s e : Date) (cpi : CpiMap)
    (ha : 0 < amount) (hse : s ≤ e) (hs1 : 1 ≤ s.month) (hs2 : s.month ≤ 12)
    (he1 : 1 ≤ e.month) (he2 : e.month ≤ 12) :
    compute_period_indexation amount s e cpi =
      (factorsProd cpi s e (monthSpan s e)).map (fun tf => quantize2 (amount * tf - amount)) := by
  unfold compute_period_indexation
  rw [if_neg (by
    rintro (h | h)
    · exact absurd ha (by simpa using h)
    · exact (Date.not_lt.mpr hse) h)]
  unfold compute_indexation_monthly monthSpan
  rw [loopMonthly_eq_factorsProd cpi s e he1 he2
    (monthIndex e.year e.month - monthIndex s.year s.month) s.year s.month 1 hs1 hs2
    (by have := monthIndex_le_of_date_le hs2 he1 hse; omega)]
  cases factorsProd cpi s e (monthsFrom (s.year, s.month)
      (monthIndex e.year e.month - monthIndex s.year s.month)) with
  | error err => rfl
  | ok p => simp [Except.map]

theorem loopExact_slices (cpi : CpiMap) (s e : Date) :
    ∀ n y m curr total acc t sl,
    loopExact cpi s e n (y, m) curr total acc = .ok (t, sl) →
    ∃ newSl, sl = acc ++ newSl ∧ ∀ x ∈ newSl, sliceWF cpi s e x := by
  intro n
  induction n with
  | zero =>
    intro y m curr total acc t sl hok
    unfold loopExact at hok
    cases hcl : cpiLookup cpi y m with
    | none => rw [hcl] at hok; exact absurd hok (by simp)
    | some v =>
      rw [hcl] at hok
      dsimp only at hok
      by_cases hend : y = e.year ∧ m = e.month
      · rw [if_pos hend] at hok
        simp only [Except.ok.injEq, Prod.mk.injEq] at hok
        refine ⟨[_], hok.2.symm, ?_⟩
        intro x hx
        simp only [List.mem_singleton] at hx
        subst hx
        refine ⟨hcl, rfl, ?_, ?_, ?_⟩
        · unfold claimDays
          rfl
        · rfl
        · intro hns hne
          exact absurd hend hne
      · rw [if_neg hend] at hok
        exact absurd hok (by simp)
  | succ n ih =>
    intro y m curr total acc t sl hok
    unfold loopExact at hok
    cases hcl : cpiLookup cpi y m with
    | none => rw [hcl] at hok; exact absurd hok (by simp)
    | some v =>
      rw [hcl] at hok
      dsimp only at hok
      by_cases hend : y = e.year ∧ m = e.month
      · rw [if_pos hend] at hok
        simp only [Except.ok.injEq, Prod.mk.injEq] at hok
        refine ⟨[_], hok.2.symm, ?_⟩
        intro x hx
        simp only [List.mem_singleton] at hx
        subst hx
        refine ⟨hcl, rfl, ?_, rfl, ?_⟩
        · unfold claimDays
          rfl
        · intro hns hne
          exact absurd hend hne
      · rw [if_neg hend] at hok
        obtain ⟨newSl, hsl, hall⟩ := ih _ _ _ _ _ _ _ hok
        refine ⟨_ :: newSl, by rw [hsl, List.append_assoc, List.singleton_append], ?_⟩
        intro x hx
        rcases List.mem_cons.mp hx with hx | hx
        · subst hx
          refine ⟨hcl, rfl, ?_, rfl, ?_⟩
          · unfold claimDays
            rfl
          · intro hns hne
            dsimp only
            rw [if_neg hend, if_neg hns]
            have hdim : ((days_in_month y m : Nat) : ℚ) ≠ 0 :=
              Nat.cast_ne_zero.mpr (by have := days_in_month_pos y m; omega)
            rw [show ((days_in_month y m : ℤ) - 1 + 1 : ℤ) = (days_in_month y m : ℤ) by ring]
            push_cast
            rw [div_self hdim]
            ring
        · exact hall x hx

theorem loopMonthly_missing (cpi : CpiMap) (s e : Date) :
    ∀ n y m tf, 1 ≤ m → m ≤ 12 →
    monthIndex y m + n = monthIndex e.year e.month →
    (∃ p ∈ monthsFrom (y, m) n, cpiLookup cpi p.1 p.2 = none) →
    ∃ a b, loopMonthly cpi s e n (y, m) tf = .error (.missing a b) ∧
      (a, b) ∈ monthsFrom (y, m) n ∧ cpiLookup cpi a b = none := by
  intro n
  induction n with
  | zero =>
    intro y m tf hm1 hm2 hidx hmiss
    obtain ⟨p, hp, hpn⟩ := hmiss
    simp only [monthsFrom, List.mem_singleton] at hp
    subst hp
    refine ⟨y, m, ?_, by simp [monthsFrom], hpn⟩
    unfold loopMonthly
    rw [hpn]
  | succ n ih =>
    intro y m tf hm1 hm2 hidx hmiss
    cases hcl : cpiLookup cpi y m with
    | none =>
      refine ⟨y, m, ?_, by simp [monthsFrom], hcl⟩
      unfold loopMonthly
      rw [hcl]
    | some v =>
      have hne : ¬(y = e.year ∧ m = e.month) := by
        intro hc
        rw [hc.1, hc.2] at hidx
        omega
      have hnb := next_month_bounds (y := y) hm1 hm2
      have hnext := monthIndex_next (y := y) hm1 hm2
      have hmiss' : ∃ p ∈ monthsFrom (next_month y m) n, cpiLookup cpi p.1 p.2 = none := by
        obtain ⟨p, hp, hpn⟩ := hmiss
        simp only [monthsFrom, List.mem_cons] at hp
        rcases hp with hp | hp
        · subst hp
          rw [hcl] at hpn
          exact absurd hpn (by simp)
        · exact ⟨p, by simpa using hp, hpn⟩
      have hrec : ∀ f : ℚ, ∃ a b, loopMonthly cpi s e n (next_month y m) f =
          .error (.missing a b) ∧ (a, b) ∈ monthsFrom (next_month y m) n ∧
          cpiLookup cpi a b = none := by
        intro f
        have := ih (next_month y m).1 (next_month y m).2 f hnb.1 hnb.2 (by omega)
          (by simpa using hmiss')
        simpa using this
      have hcond : ¬(y = s.year ∧ m = s.month ∧ y = e.year ∧ m = e.month) := by
        intro hc
        exact hne ⟨hc.2.2.1, hc.2.2.2⟩
      by_cases hs : y = s.year ∧ m = s.month
      · obtain ⟨a, b, hres, hmem, hnone⟩ := hrec
          (tf * compute_month_factor v (((days_in_month y m : ℚ) - (s.day : ℚ) + 1) / (days_in_month y m : ℚ)))
        refine ⟨a, b, ?_, ?_, hnone⟩
        · unfold loopMonthly
          rw [hcl]
          dsimp only
          rw [if_neg hcond, if_pos hs]
          exact hres
        · simp only [monthsFrom, List.mem_cons]
          right
          simpa using hmem
      · obtain ⟨a, b, hres, hmem, hnone⟩ := hrec (tf * compute_month_factor v 1)
        refine ⟨a, b, ?_, ?_, hnone⟩
        · unfold loopMonthly
          rw [hcl]
          dsimp only
          rw [if_neg hcond, if_neg hs, if_neg hne]
          exact hres
        · simp only [monthsFrom, List.mem_cons]
          right
          simpa using hmem

theorem loopExact_missing (cpi : CpiMap) (s e : Date) :
    ∀ n y m curr total acc, 1 ≤ m → m ≤ 12 →
    monthIndex y m + n = monthIndex e.year e.month →
    (∃ p ∈ monthsFrom (y, m) n, cpiLookup cpi p.1 p.2 = none) →
    ∃ a b, loopExact cpi s e n (y, m) curr total acc = .error (.missing a b) ∧
      (a, b) ∈ monthsFrom (y, m) n ∧ cpiLookup cpi a b = none := by
  intro n
  induction n with
  | zero =>
    intro y m curr total acc hm1 hm2 hidx hmiss
    obtain ⟨p, hp, hpn⟩ := hmiss
    simp only [monthsFrom, List.mem_singleton] at hp
    subst hp
    refine ⟨y, m, ?_, by simp [monthsFrom], hpn⟩
    unfold loopExact
    rw [hpn]
  | succ n ih =>
    intro y m curr total acc hm1 hm2 hidx hmiss
    cases hcl : cpiLookup cpi y m with
    | none =>
      refine ⟨y, m, ?_, by simp [monthsFrom], hcl⟩
      unfold loopExact
      rw [hcl]
    | some v =>
      have hne : ¬(y = e.year ∧ m = e.month) := by
        intro hc
        rw [hc.1, hc.2] at hidx
        omega
      have hnb := next_month_bounds (y := y) hm1 hm2
      have hnext := monthIndex_next (y := y) hm1 hm2
      have hmiss' : ∃ p ∈ monthsFrom (next_month y m) n, cpiLookup cpi p.1 p.2 = none := by
        obtain ⟨p, hp, hpn⟩ := hmiss
        simp only [monthsFrom, List.mem_cons] at hp
        rcases hp with hp | hp
        · subst hp
          rw [hcl] at hpn
          exact absurd hpn (by simp)
        · exact ⟨p, by simpa using hp, hpn⟩
      obtain ⟨a, b, hres, hmem, hnone⟩ := ih (next_month y m).1 (next_month y m).2
        _ _ _ hnb.1 hnb.2 (by omega) (by simpa using hmiss')
      refine ⟨a, b, ?_, ?_, hnone⟩
      · unfold loopExact
        rw [hcl]
        dsimp only
        rw [if_neg hne]
        exact hres
      · simp only [monthsFrom, List.mem_cons]
        right
        simpa using hmem

/-- Helper: both guard wrappers are a defined no-op on degenerate input,
independently of the CPI table. -/
theorem degenerate_noop (amount : ℚ) (s e : Date) (cpi : CpiMap)
    (h : amount ≤ 0 ∨ e < s) :
    compute_period_exact amount s e cpi = .ok (0, []) ∧
    compute_period_indexation amount s e cpi = .ok 0 := by
  constructor
  · unfold compute_period_exact
    rw [if_pos h]
  · unfold compute_period_indexation
    rw [if_pos h]

theorem insertPay_perm (p : Payment) (l : List Payment) : List.Perm (insertPay p l) (p :: l) := by
  induction l with
  | nil => rfl
  | cons q qs ih =>
    unfold insertPay
    split_ifs with h
    · rfl
    · exact (List.Perm.cons q ih).trans (List.Perm.swap p q qs)

theorem sortPays_perm (l : List Payment) : List.Perm (sortPays l) l := by
  induction l with
  | nil => rfl
  | cons p ps ih =>
    unfold sortPays
    exact (insertPay_perm p (sortPays ps)).trans (List.Perm.cons p ih)

theorem insertPay_sorted (p : Payment) (l : List Payment)
    (h : List.Pairwise (fun a b : Payment => a.date ≤ b.date) l) :
    List.Pairwise (fun a b : Payment => a.date ≤ b.date) (insertPay p l) := by
  induction l with
  | nil => simp [insertPay]
  | cons q qs ih =>
    unfold insertPay
    rcases List.pairwise_cons.mp h with ⟨hq, hqs⟩
    split_ifs with hle
    · refine List.pairwise_cons.mpr ⟨?_, h⟩
      intro x hx
      rcases List.mem_cons.mp hx with hx | hx
      · subst hx
        exact hle
      · exact Date.le_trans hle (hq x hx)
    · refine List.pairwise_cons.mpr ⟨?_, ih hqs⟩
      intro x hx
      have hx' := (insertPay_perm p qs).mem_iff.mp hx
      rcases List.mem_cons.mp hx' with hx' | hx'
      · subst hx'
        rcases Date.le_total x.date q.date with h' | h'
        · exact absurd h' hle
        · exact h'
      · exact hq x hx'

theorem sortPays_sorted (l : List Payment) :
    List.Pairwise (fun a b : Payment => a.date ≤ b.date) (sortPays l) := by
  induction l with
  | nil => simp [sortPays]
  | cons p ps ih => exact insertPay_sorted p (sortPays ps) ih

theorem periodEvents_append (a b : List Period) :
    periodEvents (a ++ b) = periodEvents a ++ periodEvents b := by
  unfold periodEvents
  exact List.filterMap_append a b _

/-- Helper: the loop of compute_debt_periods records, in order, exactly
the payments of its input list up to (and including) the first payment
from which it exits early; a possible tail period records no payment. -/
theorem debtLoop_events (cpi : CpiMap) (cutoff : Date) :
    ∀ pays remaining cs acc res,
    debtLoop cpi cutoff pays remaining cs acc = .ok res →
    periodEvents res = periodEvents acc ++
      (takeThroughCutoff cutoff pays).map (fun p => (p.date, p.amount)) := by
  intro pays
  induction pays with
  | nil =>
    intro remaining cs acc res hok
    unfold debtLoop at hok
    split_ifs at hok with hg
    · cases hcpi : compute_period_indexation remaining cs cutoff cpi with
      | error err => rw [hcpi] at hok; exact absurd hok (by simp)
      | ok ind =>
        rw [hcpi] at hok
        simp only [Except.ok.injEq] at hok
        subst hok
        simp [periodEvents_append, periodEvents, takeThroughCutoff]
    · simp only [Except.ok.injEq] at hok
      subst hok
      simp [takeThroughCutoff]
  | cons p rest ih =>
    intro remaining cs acc res hok
    unfold debtLoop at hok
    dsimp only at hok
    cases hcpi : compute_period_indexation remaining cs (Date.min p.date cutoff) cpi with
    | error err => rw [hcpi] at hok; exact absurd hok (by simp)
    | ok ind =>
      rw [hcpi] at hok
      dsimp only at hok
      split_ifs at hok with hexit
      · simp only [Except.ok.injEq] at hok
        subst hok
        rw [periodEvents_append]
        unfold takeThroughCutoff
        rw [if_pos hexit]
        simp [periodEvents]
      · rw [ih _ _ _ _ hok, periodEvents_append]
        have ht : takeThroughCutoff cutoff (p :: rest) = p :: takeThroughCutoff cutoff rest := by
          simp only [takeThroughCutoff]
          rw [if_neg hexit]
        rw [ht]
        simp [periodEvents]

/-- Helper: once the running debt is zero or negative, every further
period the loop emits carries a payment (never a tail) and zero
indexation. -/
theorem debtLoop_after_zero (cpi : CpiMap) (cutoff : Date) :
    ∀ pays remaining cs acc res,
    remaining ≤ 0 → (∀ q ∈ pays, 0 ≤ q.amount) →
    debtLoop cpi cutoff pays remaining cs acc = .ok res →
    ∃ newPs, res = acc ++ newPs ∧
      ∀ p ∈ newPs, p.indexation = 0 ∧ p.payment_date ≠ none := by
  intro pays
  induction pays with
  | nil =>
    intro remaining cs acc res hrem hamts hok
    unfold debtLoop at hok
    rw [if_neg (by
      rintro ⟨h1, h2⟩
      exact absurd hrem (not_le.mpr h1))] at hok
    simp only [Except.ok.injEq] at hok
    subst hok
    exact ⟨[], by simp, by simp⟩
  | cons p rest ih =>
    intro remaining cs acc res hrem hamts hok
    unfold debtLoop at hok
    dsimp only at hok
    have hind : compute_period_indexation remaining cs (Date.min p.date cutoff) cpi = .ok 0 :=
      (degenerate_noop remaining cs (Date.min p.date cutoff) cpi (Or.inl hrem)).2
    rw [hind] at hok
    dsimp only at hok
    split_ifs at hok with hexit
    · simp only [Except.ok.injEq] at hok
      subst hok
      refine ⟨[_], rfl, ?_⟩
      intro x hx
      simp only [List.mem_singleton] at hx
      subst hx
      exact ⟨rfl, by simp⟩
    · have hrem' : remaining - p.amount ≤ 0 := by
        have h0 := hamts p (List.mem_cons_self p rest)
        exact sub_nonpos.mpr (le_trans hrem h0)
      obtain ⟨newPs, hres, hall⟩ := ih _ _ _ _ hrem'
        (fun q hq => hamts q (List.mem_cons_of_mem p hq)) hok
      refine ⟨_ :: newPs, by rw [hres, List.append_assoc, List.singleton_append], ?_⟩
      intro x hx
      rcases List.mem_cons.mp hx with hx | hx
      · subst hx
        exact ⟨rfl, by simp⟩
      · exact hall x hx

/-- Helper: structural invariants of the loop of compute_debt_periods
when the pending payments are strictly ascending, inside the window and
on valid dates. -/
theorem debtLoop_invariants (cpi : CpiMap) (cutoff : Date) (hcut : cutoff.valid) :
    ∀ pays remaining cs acc res,
    cs ≤ cutoff →
    (∀ q ∈ pays, cs ≤ q.date ∧ q.date ≤ cutoff ∧ q.date.valid) →
    List.Pairwise (fun a b : Payment => a.date < b.date) pays →
    debtLoop cpi cutoff pays remaining cs acc = .ok res →
    ∃ newPs, res = acc ++ newPs ∧
      (∀ p ∈ newPs, p.period_start ≤ p.period_end ∧
        p.debt_after_payment = p.debt_before - p.payment_amount) ∧
      List.Chain' (fun a b => b.period_start = nextDay a.period_end) newPs ∧
      (∀ p0, newPs.head? = some p0 → p0.period_start = cs) ∧
      ((newPs = [] ∧ remaining ≤ 0 ∧ pays = []) ∨
       (∃ plast, newPs.getLast? = some plast ∧
         (plast.period_end = cutoff ∨ plast.debt_after_payment ≤ 0))) := by
  intro pays
  induction pays with
  | nil =>
    intro remaining cs acc res hcs hall hpw hok
    unfold debtLoop at hok
    split_ifs at hok with hg
    · cases hcpi : compute_period_indexation remaining cs cutoff cpi with
      | error err => rw [hcpi] at hok; exact absurd hok (by simp)
      | ok ind =>
        rw [hcpi] at hok
        simp only [Except.ok.injEq] at hok
        subst hok
        refine ⟨[_], rfl, ?_, List.chain'_singleton _, ?_, ?_⟩
        · intro x hx
          simp only [List.mem_singleton] at hx
          subst hx
          exact ⟨hcs, by simp⟩
        · intro p0 h0
          simp only [List.head?_cons, Option.some.injEq] at h0
          subst h0
          rfl
        · right
          exact ⟨_, List.getLast?_singleton _, Or.inl rfl⟩
    · simp only [Except.ok.injEq] at hok
      subst hok
      refine ⟨[], by simp, by simp, by simp, by simp, Or.inl ⟨rfl, ?_, rfl⟩⟩
      by_contra hpos
      exact hg ⟨lt_of_not_le hpos, hcs⟩
  | cons p rest ih =>
    intro remaining cs acc res hcs hall hpw hok
    unfold debtLoop at hok
    dsimp only at hok
    obtain ⟨hq1, hq2, hq3⟩ := hall p (List.mem_cons_self p rest)
    cases hcpi : compute_period_indexation remaining cs (Date.min p.date cutoff) cpi with
    | error err => rw [hcpi] at hok; exact absurd hok (by simp)
    | ok ind =>
      rw [hcpi] at hok
      dsimp only at hok
      have hminp : Date.min p.date cutoff = p.date := Date.min_eq_left hq2
      have hse : cs ≤ Date.min p.date cutoff := Date.le_min hq1 hcs
      rcases List.pairwise_cons.mp hpw with ⟨hpw1, hpw2⟩
      split_ifs at hok with hexit
      · simp only [Except.ok.injEq] at hok
        subst hok
        have hpc : cutoff ≤ p.date := (Date.lt_nextDay_iff_le hcut hq3).mp hexit
        have hpd : p.date = cutoff := Date.le_antisymm hq2 hpc
        refine ⟨[_], rfl, ?_, List.chain'_singleton _, ?_, ?_⟩
        · intro x hx
          simp only [List.mem_singleton] at hx
          subst hx
          exact ⟨hse, rfl⟩
        · intro p0 h0
          simp only [List.head?_cons, Option.some.injEq] at h0
          subst h0
          rfl
        · right
          refine ⟨_, List.getLast?_singleton _, Or.inl ?_⟩
          show Date.min p.date cutoff = cutoff
          rw [hminp, hpd]
      · have hcs' : nextDay p.date ≤ cutoff := Date.not_lt.mp hexit
        have hall' : ∀ q ∈ rest, nextDay p.date ≤ q.date ∧ q.date ≤ cutoff ∧ q.date.valid := by
          intro q hqmem
          obtain ⟨hx1, hx2, hx3⟩ := hall q (List.mem_cons_of_mem p hqmem)
          exact ⟨Date.nextDay_le_of_lt hq3 hx3 (hpw1 q hqmem), hx2, hx3⟩
        obtain ⟨newPs, hres, hper, hchain, hhead, hlast⟩ := ih _ _ _ _ hcs' hall' hpw2 hok
        refine ⟨_ :: newPs, by rw [hres, List.append_assoc, List.singleton_append], ?_, ?_, ?_, ?_⟩
        · intro x hx
          rcases List.mem_cons.mp hx with hx | hx
          · subst hx
            exact ⟨hse, rfl⟩
          · exact hper x hx
        · refine List.chain'_cons'.mpr ⟨?_, hchain⟩
          intro b hb
          have := hhead b hb
          show b.period_start = nextDay (Date.min p.date cutoff)
          rw [hminp]
          exact this
        · intro p0 h0
          simp only [List.head?_cons, Option.some.injEq] at h0
          subst h0
          rfl
        · rcases hlast with ⟨hnil, hrem', hrest⟩ | ⟨plast, hpl, hd⟩
          · subst hnil
            right
            exact ⟨_, List.getLast?_singleton _, Or.inr hrem'⟩
          · cases newPs with
            | nil => simp at hpl
            | cons b l =>
              right
              refine ⟨plast, ?_, hd⟩
              rw [List.getLast?_cons_cons]
              exact hpl

theorem quantize2_zero : quantize2 0 = 0 := by
  unfold quantize2 roundHalfUp
  rw [if_pos (by norm_num)]
  rw [floorq (q := (100 : ℚ) * 0 + 1/2) (z := 0) (by norm_num) (by norm_num)]
  norm_num

/-- Helper: over a single month whose CPI value is exactly 100, the period
indexation is 0.00 for every amount and any dates inside that month. -/
theorem indexation_flat_month (r : ℚ) (s e : Date) (y m : Nat)
    (hs : s.year = y ∧ s.month = m) (he : e.year = y ∧ e.month = m) :
    compute_period_indexation r s e [((y, m), 100)] = .ok 0 := by
  unfold compute_period_indexation
  split_ifs with hg
  · rfl
  · unfold compute_indexation_monthly
    rw [show monthIndex e.year e.month - monthIndex s.year s.month = 0 by
      rw [hs.1, hs.2, he.1, he.2]; omega]
    unfold loopMonthly
    rw [show cpiLookup [((y, m), 100)] s.year s.month = some 100 by
      unfold cpiLookup
      rw [if_pos (by rw [hs.1, hs.2])]]
    dsimp only
    rw [if_pos ⟨rfl, rfl, by rw [hs.1, he.1], by rw [hs.2, he.2]⟩]
    unfold compute_month_factor
    simp only [Except.map, Except.ok.injEq]
    rw [show (1 : ℚ) * (1 + (100 - 100) / 100 * (((e.day : ℚ) - (s.day : ℚ) + 1) / ((days_in_month s.year s.month : ℚ)))) = 1 by ring]
    rw [show r * 1 - r = 0 by ring]
    exact quantize2_zero

theorem quantize2_sub_int (x : ℚ) (k : ℤ) (h1 : 0 ≤ 100 * x - (k : ℚ)) (h2 : 0 ≤ 100 * x) :
    quantize2 (x - (k : ℚ) / 100) = quantize2 x - (k : ℚ) / 100 := by
  unfold quantize2 roundHalfUp
  rw [if_pos (by linarith : (0 : ℚ) ≤ 100 * (x - (k : ℚ) / 100)), if_pos h2]
  rw [show (100 : ℚ) * (x - (k : ℚ) / 100) = 100 * x - (k : ℚ) by ring]
  rw [show (100 : ℚ) * x - (k : ℚ) + 1/2 = (100 * x + 1/2) - (k : ℚ) by ring]
  rw [Int.floor_sub_int]
  push_cast
  ring

/-- Helper: on a single-month span, with a 2-decimal positive amount and a
CPI value at least 100 whose division by 100 survives the 4-decimal
quantization exactly, the per-month-rounded computation and the
round-once-at-the-end computation agree. -/
theorem exact_eq_indexation_single (amount v : ℚ) (k : ℤ) (s e : Date) (cpi : CpiMap)
    (hk : amount = (k : ℚ) / 100) (ha : 0 < amount)
    (hy : s.year = e.year) (hm : s.month = e.month) (hd : s.day ≤ e.day)
    (hcl : cpiLookup cpi s.year s.month = some v)
    (hqv : monthly_factor v = v / 100) (hv : 100 ≤ v) :
    (compute_period_exact amount s e cpi).map Prod.fst =
      compute_period_indexation amount s e cpi := by
  have hse : s ≤ e := Date.le_def.mpr (Or.inr ⟨hy, Or.inr ⟨hm, hd⟩⟩)
  have hg : ¬(amount ≤ 0 ∨ e < s) := by
    rintro (h | h)
    · exact absurd ha (not_lt.mpr h)
    · exact (Date.not_lt.mpr hse) h
  have hfuel : monthIndex e.year e.month - monthIndex s.year s.month = 0 := by
    rw [← hy, ← hm]
    omega
  unfold compute_period_exact compute_period_indexation compute_indexation_monthly
  rw [if_neg hg, if_neg hg, hfuel]
  unfold loopExact loopMonthly
  rw [hcl]
  dsimp only
  rw [if_pos ⟨hy, hm⟩, if_pos (⟨rfl, rfl⟩ : s.year = s.year ∧ s.month = s.month),
    if_pos (⟨rfl, rfl, hy, hm⟩ :
      s.year = s.year ∧ s.month = s.month ∧ s.year = e.year ∧ s.month = e.month)]
  rw [if_pos (show s.year = e.year ∧ s.month = e.month from ⟨hy, hm⟩)]
  simp only [Except.map, Except.ok.injEq]
  set dim : Nat := days_in_month s.year s.month with hdim
  have hdimpos : (0 : ℚ) < (dim : ℚ) := by
    have := days_in_month_pos s.year s.month
    rw [hdim]
    exact_mod_cast this
  have hprop0 : (0 : ℚ) ≤ ((e.day : ℚ) - (s.day : ℚ) + 1) / (dim : ℚ) := by
    apply div_nonneg _ (le_of_lt hdimpos)
    have : (s.day : ℚ) ≤ (e.day : ℚ) := by exact_mod_cast hd
    linarith
  have heff : 1 + (monthly_factor v - 1) *
      ((((e.day : ℤ) - (s.day : ℤ) + 1 : ℤ) : ℚ) / ((dim : Nat) : ℚ)) =
      compute_month_factor v (((e.day : ℚ) - (s.day : ℚ) + 1) / (dim : ℚ)) := by
    rw [hqv]
    unfold compute_month_factor
    push_cast
    ring
  rw [heff]
  set F : ℚ := compute_month_factor v (((e.day : ℚ) - (s.day : ℚ) + 1) / (dim : ℚ)) with hF
  have hF1 : 1 ≤ F := by
    rw [hF]
    unfold compute_month_factor
    have hnum : (0 : ℚ) ≤ (v - 100) / 100 := by linarith
    nlinarith [mul_nonneg hnum hprop0]
  have hsub := quantize2_sub_int (amount * F) k
    (by nlinarith) (by nlinarith)
  rw [show amount * (1 * F) - amount = amount * F - (k : ℚ) / 100 by rw [← hk]; ring]
  rw [hsub, ← hk]
  ring

theorem mf_1001 : monthly_factor (1001/10 : ℚ) = 1001/1000 := by
  unfold monthly_factor
  rw [show ((10000 : ℚ) * (1001/10/100)) = ((10010 : ℤ) : ℚ) by norm_num]
  rw [roundHalfEven_lo (z := 10010) (by norm_num) (by norm_num)]
  norm_num

theorem mf_84 : monthly_factor (10084/100 : ℚ) = 10084/10000 := by
  unfold monthly_factor
  rw [show ((10000 : ℚ) * (10084/100/100)) = ((10084 : ℤ) : ℚ) by norm_num]
  rw [roundHalfEven_lo (z := 10084) (by norm_num) (by norm_num)]
  norm_num

theorem mf_tiny : monthly_factor (20001/200 : ℚ) = 1 := by
  unfold monthly_factor
  rw [show ((10000 : ℚ) * (20001/200/100)) = ((10000 : ℤ) : ℚ) + 1/2 by norm_num]
  rw [roundHalfEven_tie_even (z := 10000) rfl (by norm_num)]
  norm_num

theorem indexation_3333 :
    compute_period_indexation (3333/100) ⟨2024, 1, 1⟩ ⟨2024, 2, 29⟩ cpiTwo = .ok (7/100) := by
  have hq : quantize2 (6669333/100000000 : ℚ) = 7/100 := by
    rw [quantize2_eq (z := 7) (by norm_num) (by norm_num) (by norm_num)]
    norm_num
  unfold compute_period_indexation
  rw [if_neg (by
    rintro (h | h)
    · norm_num at h
    · exact absurd h (by decide))]
  unfold compute_indexation_monthly
  norm_num [monthIndex]
  unfold loopMonthly
  norm_num [cpiTwo, cpiLookup, days_in_month, isLeap, next_month, compute_month_factor]
  unfold loopMonthly
  norm_num [cpiTwo, cpiLookup, days_in_month, isLeap, next_month, compute_month_factor]
  norm_num [Except.map, hq]

theorem chain_3333 :
    specRoundedChain (3333/100) ⟨2024, 1, 1⟩ ⟨2024, 2, 29⟩ cpiTwo = .ok (6/100) := by
  have hq1 : quantize2 (3336333/100000 : ℚ) = 3336/100 := by
    rw [quantize2_eq (z := 3336) (by norm_num) (by norm_num) (by norm_num)]
    norm_num
  have hq2 : quantize2 (417417/12500 : ℚ) = 3339/100 := by
    rw [quantize2_eq (z := 3339) (by norm_num) (by norm_num) (by norm_num)]
    norm_num
  unfold specRoundedChain monthSpan
  norm_num [monthIndex]
  unfold monthsFrom
  norm_num [next_month]
  unfold monthsFrom
  unfold specChainGo
  norm_num [cpiTwo, cpiLookup, days_in_month, isLeap, hq1]
  unfold specChainGo
  norm_num [cpiTwo, cpiLookup, days_in_month, isLeap, hq2]
  unfold specChainGo
  norm_num [Except.map]

theorem exact_6667 :
    (compute_period_exact (6667/100) ⟨2024, 1, 1⟩ ⟨2024, 2, 29⟩ cpiTwo).map Prod.fst =
      .ok (14/100) := by
  have hq1 : quantize2 (6673667/100000 : ℚ) = 6674/100 := by
    rw [quantize2_eq (z := 6674) (by norm_num) (by norm_num) (by norm_num)]
    norm_num
  have hq2 : quantize2 (3340337/50000 : ℚ) = 6681/100 := by
    rw [quantize2_eq (z := 6681) (by norm_num) (by norm_num) (by norm_num)]
    norm_num
  unfold compute_period_exact
  rw [if_neg (by
    rintro (h | h)
    · norm_num at h
    · exact absurd h (by decide))]
  norm_num [monthIndex]
  unfold loopExact
  norm_num [cpiTwo, cpiLookup, days_in_month, isLeap, next_month, mf_1001, hq1]
  unfold loopExact
  norm_num [cpiTwo, cpiLookup, days_in_month, isLeap, next_month, mf_1001, hq2, Except.map]

theorem indexation_6667 :
    compute_period_indexation (6667/100) ⟨2024, 1, 1⟩ ⟨2024, 2, 29⟩ cpiTwo = .ok (13/100) := by
  have hq : quantize2 (13340667/100000000 : ℚ) = 13/100 := by
    rw [quantize2_eq (z := 13) (by norm_num) (by norm_num) (by norm_num)]
    norm_num
  unfold compute_period_indexation
  rw [if_neg (by
    rintro (h | h)
    · norm_num at h
    · exact absurd h (by decide))]
  unfold compute_indexation_monthly
  norm_num [monthIndex]
  unfold loopMonthly
  norm_num [cpiTwo, cpiLookup, days_in_month, isLeap, next_month, compute_month_factor]
  unfold loopMonthly
  norm_num [cpiTwo, cpiLookup, days_in_month, isLeap, next_month, compute_month_factor]
  norm_num [Except.map, hq]

theorem mf_84n : monthly_factor (2521/25 : ℚ) = 2521/2500 := by
  rw [show (2521/25 : ℚ) = 10084/100 by norm_num, mf_84]
  norm_num

theorem exact_84 :
    compute_period_exact 10000 ⟨2024, 1, 1⟩ ⟨2024, 1, 31⟩ cpi84 =
      .ok (84, [⟨2024, 1, 31, 31, 10084/100, 10084/10000, 84⟩]) := by
  have hq : quantize2 (10084 : ℚ) = 10084 := by
    rw [quantize2_eq (z := 1008400) (by norm_num) (by norm_num) (by norm_num)]
    norm_num
  unfold compute_period_exact
  rw [if_neg (by
    rintro (h | h)
    · norm_num at h
    · exact absurd h (by decide))]
  norm_num [monthIndex]
  unfold loopExact
  norm_num [cpi84, cpiLookup, days_in_month, isLeap, mf_84, mf_84n, hq]

theorem indexation_84 :
    compute_period_indexation 10000 ⟨2024, 1, 1⟩ ⟨2024, 1, 31⟩ cpi84 = .ok 84 := by
  have hq : quantize2 (84 : ℚ) = 84 := by
    rw [quantize2_eq (z := 8400) (by norm_num) (by norm_num) (by norm_num)]
    norm_num
  unfold compute_period_indexation
  rw [if_neg (by
    rintro (h | h)
    · norm_num at h
    · exact absurd h (by decide))]
  unfold compute_indexation_monthly
  norm_num [monthIndex]
  unfold loopMonthly
  norm_num [cpi84, cpiLookup, days_in_month, isLeap, compute_month_factor]
  norm_num [Except.map, hq]

theorem exact_tiny :
    compute_period_exact 100 ⟨2024, 1, 1⟩ ⟨2024, 1, 31⟩ cpiTiny =
      .ok (0, [⟨2024, 1, 31, 31, 20001/200, 1, 0⟩]) := by
  have hq : quantize2 (100 : ℚ) = 100 := by
    rw [quantize2_eq (z := 10000) (by norm_num) (by norm_num) (by norm_num)]
    norm_num
  unfold compute_period_exact
  rw [if_neg (by
    rintro (h | h)
    · norm_num at h
    · exact absurd h (by decide))]
  norm_num [monthIndex]
  unfold loopExact
  norm_num [cpiTiny, cpiLookup, days_in_month, isLeap, mf_tiny, hq]

theorem debt_eval3 : compute_debt_periods ⟨2024, 1, 1⟩ 100 paysSameDay cpiFlat ⟨2024, 1, 31⟩ =
    .ok [⟨⟨2024, 1, 1⟩, ⟨2024, 1, 10⟩, 100, some ⟨2024, 1, 10⟩, 50, 50, 0⟩,
         ⟨⟨2024, 1, 11⟩, ⟨2024, 1, 10⟩, 50, some ⟨2024, 1, 10⟩, 30, 20, 0⟩,
         ⟨⟨2024, 1, 11⟩, ⟨2024, 1, 31⟩, 20, none, 0, 20, 0⟩] := by
  have h1 := indexation_flat_month 100 ⟨2024, 1, 1⟩ ⟨2024, 1, 10⟩ 2024 1 ⟨rfl, rfl⟩ ⟨rfl, rfl⟩
  have h2 := indexation_flat_month 50 ⟨2024, 1, 11⟩ ⟨2024, 1, 10⟩ 2024 1 ⟨rfl, rfl⟩ ⟨rfl, rfl⟩
  have h3 := indexation_flat_month 20 ⟨2024, 1, 11⟩ ⟨2024, 1, 31⟩ 2024 1 ⟨rfl, rfl⟩ ⟨rfl, rfl⟩
  show debtLoop cpiFlat ⟨2024, 1, 31⟩ paysSameDay 100 ⟨2024, 1, 1⟩ [] = _
  unfold paysSameDay cpiFlat
  unfold debtLoop
  dsimp only
  rw [show (Date.min ⟨2024, 1, 10⟩ ⟨2024, 1, 31⟩ : Date) = ⟨2024, 1, 10⟩ from rfl,
    show (nextDay ⟨2024, 1, 10⟩ : Date) = ⟨2024, 1, 11⟩ from rfl]
  rw [h1]
  dsimp only
  rw [if_neg (by decide)]
  norm_num
  unfold debtLoop
  dsimp only
  rw [show (Date.min ⟨2024, 1, 10⟩ ⟨2024, 1, 31⟩ : Date) = ⟨2024, 1, 10⟩ from rfl,
    show (nextDay ⟨2024, 1, 10⟩ : Date) = ⟨2024, 1, 11⟩ from rfl]
  rw [h2]
  dsimp only
  rw [if_neg (by decide)]
  norm_num
  unfold debtLoop
  rw [if_pos (⟨by norm_num, by decide⟩ :
    (0 : ℚ) < 20 ∧ (⟨2024, 1, 11⟩ : Date) ≤ ⟨2024, 1, 31⟩)]
  rw [h3]
  norm_num

theorem debt_eval4 : compute_debt_periods ⟨2024, 1, 1⟩ 100 paysOvershoot cpiFlat ⟨2024, 1, 31⟩ =
    .ok [⟨⟨2024, 1, 1⟩, ⟨2024, 1, 5⟩, 100, some ⟨2024, 1, 5⟩, 100, 0, 0⟩,
         ⟨⟨2024, 1, 6⟩, ⟨2024, 1, 20⟩, 0, some ⟨2024, 1, 20⟩, 50, -50, 0⟩] := by
  have h1 := indexation_flat_month 100 ⟨2024, 1, 1⟩ ⟨2024, 1, 5⟩ 2024 1 ⟨rfl, rfl⟩ ⟨rfl, rfl⟩
  have h2 := indexation_flat_month 0 ⟨2024, 1, 6⟩ ⟨2024, 1, 20⟩ 2024 1 ⟨rfl, rfl⟩ ⟨rfl, rfl⟩
  show debtLoop cpiFlat ⟨2024, 1, 31⟩ paysOvershoot 100 ⟨2024, 1, 1⟩ [] = _
  unfold paysOvershoot cpiFlat
  unfold debtLoop
  dsimp only
  rw [show (Date.min ⟨2024, 1, 5⟩ ⟨2024, 1, 31⟩ : Date) = ⟨2024, 1, 5⟩ from rfl,
    show (nextDay ⟨2024, 1, 5⟩ : Date) = ⟨2024, 1, 6⟩ from rfl]
  rw [h1]
  dsimp only
  rw [if_neg (by decide)]
  norm_num
  unfold debtLoop
  dsimp only
  rw [show (Date.min ⟨2024, 1, 20⟩ ⟨2024, 1, 31⟩ : Date) = ⟨2024, 1, 20⟩ from rfl,
    show (nextDay ⟨2024, 1, 20⟩ : Date) = ⟨2024, 1, 21⟩ from rfl]
  rw [h2]
  dsimp only
  rw [if_neg (by decide)]
  norm_num
  unfold debtLoop
  rw [if_neg (by
    rintro ⟨hpos, _⟩
    norm_num at hpos)]

theorem debt_eval9 : compute_debt_periods ⟨2024, 1, 1⟩ 100 paysTwin cpiFlat ⟨2024, 1, 31⟩ =
    .ok [⟨⟨2024, 1, 1⟩, ⟨2024, 1, 15⟩, 100, some ⟨2024, 1, 15⟩, 40, 60, 0⟩,
         ⟨⟨2024, 1, 16⟩, ⟨2024, 1, 15⟩, 60, some ⟨2024, 1, 15⟩, 40, 20, 0⟩,
         ⟨⟨2024, 1, 16⟩, ⟨2024, 1, 31⟩, 20, none, 0, 20, 0⟩] := by
  have h1 := indexation_flat_month 100 ⟨2024, 1, 1⟩ ⟨2024, 1, 15⟩ 2024 1 ⟨rfl, rfl⟩ ⟨rfl, rfl⟩
  have h2 := indexation_flat_month 60 ⟨2024, 1, 16⟩ ⟨2024, 1, 15⟩ 2024 1 ⟨rfl, rfl⟩ ⟨rfl, rfl⟩
  have h3 := indexation_flat_month 20 ⟨2024, 1, 16⟩ ⟨2024, 1, 31⟩ 2024 1 ⟨rfl, rfl⟩ ⟨rfl, rfl⟩
  show debtLoop cpiFlat ⟨2024, 1, 31⟩ paysTwin 100 ⟨2024, 1, 1⟩ [] = _
  unfold paysTwin cpiFlat
  unfold debtLoop
  dsimp only
  rw [show (Date.min ⟨2024, 1, 15⟩ ⟨2024, 1, 31⟩ : Date) = ⟨2024, 1, 15⟩ from rfl,
    show (nextDay ⟨2024, 1, 15⟩ : Date) = ⟨2024, 1, 16⟩ from rfl]
  rw [h1]
  dsimp only
  rw [if_neg (by decide)]
  norm_num
  unfold debtLoop
  dsimp only
  rw [show (Date.min ⟨2024, 1, 15⟩ ⟨2024, 1, 31⟩ : Date) = ⟨2024, 1, 15⟩ from rfl,
    show (nextDay ⟨2024, 1, 15⟩ : Date) = ⟨2024, 1, 16⟩ from rfl]
  rw [h2]
  dsimp only
  rw [if_neg (by decide)]
  norm_num
  unfold debtLoop
  rw [if_pos (⟨by norm_num, by decide⟩ :
    (0 : ℚ) < 20 ∧ (⟨2024, 1, 16⟩ : Date) ≤ ⟨2024, 1, 31⟩)]
  rw [h3]
  norm_num

theorem debtLoop_zero_eval :
    debtLoop cpiFlat ⟨2024, 1, 31⟩ [⟨⟨2024, 1, 20⟩, 50⟩] 0 ⟨2024, 1, 6⟩ [] =
      .ok [⟨⟨2024, 1, 6⟩, ⟨2024, 1, 20⟩, 0, some ⟨2024, 1, 20⟩, 50, -50, 0⟩] := by
  have h2 := indexation_flat_month 0 ⟨2024, 1, 6⟩ ⟨2024, 1, 20⟩ 2024 1 ⟨rfl, rfl⟩ ⟨rfl, rfl⟩
  unfold cpiFlat
  unfold debtLoop
  dsimp only
  rw [show (Date.min ⟨2024, 1, 20⟩ ⟨2024, 1, 31⟩ : Date) = ⟨2024, 1, 20⟩ from rfl,
    show (nextDay ⟨2024, 1, 20⟩ : Date) = ⟨2024, 1, 21⟩ from rfl]
  rw [h2]
  dsimp only
  rw [if_neg (by decide)]
  norm_num
  unfold debtLoop
  rw [if_neg (by
    rintro ⟨hpos, _⟩
    norm_num at hpos)]

theorem Date.lt_of_le_of_ne {a b : Date} (h1 : a ≤ b) (h2 : a ≠ b) : a < b := by
  obtain ⟨y1, m1, d1⟩ := a
  obtain ⟨y2, m2, d2⟩ := b
  simp only [Date.le_def, Date.lt_def, ne_eq, Date.mk.injEq] at *
  omega

/-- Claim C1, counterexample: on amount 33.33 over January and February
2024 with CPI 100.1 in both months, compute_period_indexation returns 0.07
while the rounded-chain computation described by the claim returns 0.06,
so compute_period_indexation does not implement the rounded chain. -/
theorem claim_C1_counterexample :
    compute_period_indexation (3333/100) ⟨2024, 1, 1⟩ ⟨2024, 2, 29⟩ cpiTwo = .ok (7/100) ∧
    specRoundedChain (3333/100) ⟨2024, 1, 1⟩ ⟨2024, 2, 29⟩ cpiTwo = .ok (6/100) ∧
    (7/100 : ℚ) ≠ 6/100 :=
  ⟨indexation_3333, chain_3333, by norm_num⟩

/-- Claim C1, amended: for every amount > 0 and start_date <= end_date
(months in range), the period indexation returned by
compute_period_indexation equals the amount scaled by the UNROUNDED
product of the per-month effective factors, minus the amount, quantized
to 2 decimal places with round-half-up ONCE at the very end; the running
amount is not rounded after each month step (that policy belongs to
compute_period_exact). -/
theorem claim_C1 (amount : ℚ) (s e : Date) (cpi : CpiMap)
    (ha : 0 < amount) (hse : s ≤ e) (hs1 : 1 ≤ s.month) (hs2 : s.month ≤ 12)
    (he1 : 1 ≤ e.month) (he2 : e.month ≤ 12) :
    compute_period_indexation amount s e cpi =
      (factorsProd cpi s e (monthSpan s e)).map (fun tf => quantize2 (amount * tf - amount)) :=
  indexation_eq_product amount s e cpi ha hse hs1 hs2 he1 he2

/-- Claim C1, witness: the amended statement applied at a concrete input. -/
theorem claim_C1_witness :
    compute_period_indexation 1 ⟨2024, 1, 1⟩ ⟨2024, 2, 29⟩ [] =
      (factorsProd [] ⟨2024, 1, 1⟩ ⟨2024, 2, 29⟩ (monthSpan ⟨2024, 1, 1⟩ ⟨2024, 2, 29⟩)).map
        (fun tf => quantize2 (1 * tf - 1)) :=
  claim_C1 1 ⟨2024, 1, 1⟩ ⟨2024, 2, 29⟩ [] (by norm_num) (by decide) (by decide) (by decide)
    (by decide) (by decide)

/-- Claim C2, code-bug evidence: on a CPI table holding December 2024 and
January 2025 only, with requested cutoff 2025-06-30, process_workbook
clamps to min(requested, 2025-12-31) because it takes the maximum year and
the maximum month over independent columns, so the effective cutoff it
uses is 2025-06-30, while the last date actually present in the table is
2025-01-31; the claimed clamp differs. -/
theorem claim_C2_bug :
    process_effective_cutoff cpiGap ⟨2025, 6, 30⟩ = ⟨2025, 6, 30⟩ ∧
    spec_effective_cutoff cpiGap ⟨2025, 6, 30⟩ = ⟨2025, 1, 31⟩ ∧
    process_effective_cutoff cpiGap ⟨2025, 6, 30⟩ ≠ spec_effective_cutoff cpiGap ⟨2025, 6, 30⟩ := by
  decide

/-- Claim C3, counterexample: two qualifying payments on the same date
2024-01-10 (50 and 30) are NOT merged before segmentation: the returned
periods record two separate payment events on that date, not one summed
event of 80. -/
theorem claim_C3_counterexample :
    (compute_debt_periods ⟨2024, 1, 1⟩ 100 paysSameDay cpiFlat ⟨2024, 1, 31⟩).map periodEvents =
      .ok [(⟨2024, 1, 10⟩, 50), (⟨2024, 1, 10⟩, 30)] ∧
    ([(⟨2024, 1, 10⟩, (50 : ℚ)), (⟨2024, 1, 10⟩, 30)] : List (Date × ℚ)) ≠
      [(⟨2024, 1, 10⟩, 80)] := by
  constructor
  · rw [debt_eval3]
    rfl
  · simp

/-- Claim C3, amended: the payment events recorded by compute_debt_periods
are exactly the payments with date <= cutoff_date and amount > 0, sorted
ascending by date, truncated after the first processed payment from which
the loop exits early (day after the payment date past the cutoff); the
sorted qualifying list is a permutation of the qualifying payments and is
ascending by date.  Same-date payments are NOT merged: each remains its
own event. -/
theorem claim_C3 (order_date : Date) (base_amount : ℚ) (payments : List Payment)
    (cpi : CpiMap) (cutoff_date : Date) (res : List Period)
    (hok : compute_debt_periods order_date base_amount payments cpi cutoff_date = .ok res) :
    periodEvents res =
      (takeThroughCutoff cutoff_date (sortPays (payments.filter (qualifies cutoff_date)))).map
        (fun p => (p.date, p.amount)) ∧
    List.Perm (sortPays (payments.filter (qualifies cutoff_date)))
      (payments.filter (qualifies cutoff_date)) ∧
    List.Pairwise (fun a b : Payment => a.date ≤ b.date)
      (sortPays (payments.filter (qualifies cutoff_date))) := by
  refine ⟨?_, sortPays_perm _, sortPays_sorted _⟩
  unfold compute_debt_periods at hok
  dsimp only at hok
  cases hpays : sortPays (payments.filter (qualifies cutoff_date)) with
  | nil =>
    rw [hpays] at hok
    dsimp only at hok
    cases hcpi : compute_period_indexation base_amount order_date cutoff_date cpi with
    | error err => rw [hcpi] at hok; exact absurd hok (by simp)
    | ok ind =>
      rw [hcpi] at hok
      simp only [Except.ok.injEq] at hok
      subst hok
      rfl
  | cons p rest =>
    rw [hpays] at hok
    dsimp only at hok
    have := debtLoop_events cpi cutoff_date (p :: rest) base_amount order_date [] res hok
    simpa [periodEvents] using this

/-- Claim C3, witness: the amended statement applied to the concrete
same-date run. -/
theorem claim_C3_witness :
    periodEvents [⟨⟨2024, 1, 1⟩, ⟨2024, 1, 10⟩, 100, some ⟨2024, 1, 10⟩, 50, 50, 0⟩,
        ⟨⟨2024, 1, 11⟩, ⟨2024, 1, 10⟩, 50, some ⟨2024, 1, 10⟩, 30, 20, 0⟩,
        ⟨⟨2024, 1, 11⟩, ⟨2024, 1, 31⟩, 20, none, 0, 20, 0⟩] =
      (takeThroughCutoff ⟨2024, 1, 31⟩
        (sortPays (paysSameDay.filter (qualifies ⟨2024, 1, 31⟩)))).map
        (fun p => (p.date, p.amount)) ∧
    List.Perm (sortPays (paysSameDay.filter (qualifies ⟨2024, 1, 31⟩)))
      (paysSameDay.filter (qualifies ⟨2024, 1, 31⟩)) ∧
    List.Pairwise (fun a b : Payment => a.date ≤ b.date)
      (sortPays (paysSameDay.filter (qualifies ⟨2024, 1, 31⟩))) :=
  claim_C3 ⟨2024, 1, 1⟩ 100 paysSameDay cpiFlat ⟨2024, 1, 31⟩ _ debt_eval3

/-- Claim C4, counterexample: the first payment (2024-01-05, 100) zeroes
the 100 debt, yet a Period is still emitted for the later payment
(2024-01-20, 50), with debt_before 0: the zeroing Period is NOT the last
element, and the loop does not terminate early. -/
theorem claim_C4_counterexample :
    (compute_debt_periods ⟨2024, 1, 1⟩ 100 paysOvershoot cpiFlat ⟨2024, 1, 31⟩).map
        (fun ps => ps.map (fun p => (p.payment_date, p.debt_before))) =
      .ok [(some ⟨2024, 1, 5⟩, 100), (some ⟨2024, 1, 20⟩, 0)] := by
  rw [debt_eval4]
  rfl

/-- Claim C4, amended: once the running remaining debt is 0 or negative,
periods ARE still emitted for the remaining payment events, but each such
period carries zero indexation (the guard of compute_period_indexation
returns 0.00 on a non-positive amount) and records a payment, and no tail
period is ever emitted from such a state. -/
theorem claim_C4 (cpi : CpiMap) (cutoff_date : Date) (pays : List Payment) (remaining : ℚ)
    (current_start : Date) (acc res : List Period)
    (hrem : remaining ≤ 0) (hamts : ∀ q ∈ pays, 0 ≤ q.amount)
    (hok : debtLoop cpi cutoff_date pays remaining current_start acc = .ok res) :
    ∃ newPs, res = acc ++ newPs ∧
      ∀ p ∈ newPs, p.indexation = 0 ∧ p.payment_date ≠ none :=
  debtLoop_after_zero cpi cutoff_date pays remaining current_start acc res hrem hamts hok

/-- Claim C4, witness: the amended statement applied to the state after
the zeroing payment of the concrete overshoot run. -/
theorem claim_C4_witness :
    ∃ newPs, [(⟨⟨2024, 1, 6⟩, ⟨2024, 1, 20⟩, 0, some ⟨2024, 1, 20⟩, 50, -50, 0⟩ : Period)] =
        [] ++ newPs ∧
      ∀ p ∈ newPs, p.indexation = 0 ∧ p.payment_date ≠ none :=
  claim_C4 cpiFlat ⟨2024, 1, 31⟩ [⟨⟨2024, 1, 20⟩, 50⟩] 0 ⟨2024, 1, 6⟩ [] _ (by norm_num)
    (by
      intro q hq
      simp only [List.mem_singleton] at hq
      subst hq
      norm_num)
    debtLoop_zero_eval

/-- Claim C5: for amount > 0 and start_date <= end_date (months in range),
if some visited month is absent from the CPI table, both
compute_period_indexation (via compute_indexation_monthly) and
compute_period_exact fail with an error identifying a missing visited
month, no numeric result being produced, and no neutral factor being
substituted. -/
theorem claim_C5 (amount : ℚ) (s e : Date) (cpi : CpiMap)
    (ha : 0 < amount) (hse : s ≤ e) (hs1 : 1 ≤ s.month) (hs2 : s.month ≤ 12)
    (he1 : 1 ≤ e.month)
    (hmiss : ∃ p ∈ monthSpan s e, cpiLookup cpi p.1 p.2 = none) :
    (∃ a b, compute_period_indexation amount s e cpi = .error (.missing a b) ∧
      (a, b) ∈ monthSpan s e ∧ cpiLookup cpi a b = none) ∧
    (∃ a b, compute_period_exact amount s e cpi = .error (.missing a b) ∧
      (a, b) ∈ monthSpan s e ∧ cpiLookup cpi a b = none) := by
  have hg : ¬(amount ≤ 0 ∨ e < s) := by
    rintro (h | h)
    · exact absurd ha (not_lt.mpr h)
    · exact (Date.not_lt.mpr hse) h
  have hidx : monthIndex s.year s.month +
      (monthIndex e.year e.month - monthIndex s.year s.month) = monthIndex e.year e.month := by
    have := monthIndex_le_of_date_le hs2 he1 hse
    omega
  unfold monthSpan at hmiss ⊢
  constructor
  · obtain ⟨a, b, hres, hmem, hnone⟩ :=
      loopMonthly_missing cpi s e _ s.year s.month 1 hs1 hs2 hidx hmiss
    refine ⟨a, b, ?_, hmem, hnone⟩
    unfold compute_period_indexation
    rw [if_neg hg]
    unfold compute_indexation_monthly
    rw [hres]
    rfl
  · obtain ⟨a, b, hres, hmem, hnone⟩ :=
      loopExact_missing cpi s e _ s.year s.month amount 0 [] hs1 hs2 hidx hmiss
    refine ⟨a, b, ?_, hmem, hnone⟩
    unfold compute_period_exact
    rw [if_neg hg]
    exact hres

/-- Claim C5, witness: a range touching February 2024 with a table holding
only January 2024. -/
theorem claim_C5_witness :
    (∃ a b, compute_period_indexation 1 ⟨2024, 1, 5⟩ ⟨2024, 2, 10⟩ cpiFlat =
      .error (.missing a b) ∧
      (a, b) ∈ monthSpan ⟨2024, 1, 5⟩ ⟨2024, 2, 10⟩ ∧ cpiLookup cpiFlat a b = none) ∧
    (∃ a b, compute_period_exact 1 ⟨2024, 1, 5⟩ ⟨2024, 2, 10⟩ cpiFlat =
      .error (.missing a b) ∧
      (a, b) ∈ monthSpan ⟨2024, 1, 5⟩ ⟨2024, 2, 10⟩ ∧ cpiLookup cpiFlat a b = none) :=
  claim_C5 1 ⟨2024, 1, 5⟩ ⟨2024, 2, 10⟩ cpiFlat (by norm_num) (by decide) (by decide)
    (by decide) (by decide) ⟨(2024, 2), by decide, by decide⟩

/-- Claim C6: for amount <= 0 or start_date > end_date, both
compute_period_exact and compute_period_indexation return zero increment
with an empty breakdown and raise no error, for EVERY CPI table: the
result does not depend on the table, which is never consulted. -/
theorem claim_C6 (amount : ℚ) (s e : Date) (cpi : CpiMap) (h : amount ≤ 0 ∨ e < s) :
    compute_period_exact amount s e cpi = .ok (0, []) ∧
    compute_period_indexation amount s e cpi = .ok 0 :=
  degenerate_noop amount s e cpi h

/-- Claim C6, witness: amount 0 on an empty table. -/
theorem claim_C6_witness :
    compute_period_exact 0 ⟨2024, 5, 1⟩ ⟨2024, 5, 1⟩ [] = .ok (0, []) ∧
    compute_period_indexation 0 ⟨2024, 5, 1⟩ ⟨2024, 5, 1⟩ [] = .ok 0 :=
  claim_C6 0 ⟨2024, 5, 1⟩ ⟨2024, 5, 1⟩ [] (Or.inl (by norm_num))

/-- Claim C7, counterexample: with CPI value 100.005 over a full January
2024, the visited month's factor recorded by compute_period_exact is 1
(the 4-decimal half-even quantization of 1.00005 inside monthly_factor
rounds to 1.0000), not the claimed 1 + (cpi/100 - 1) * (days/dim) =
1.00005. -/
theorem claim_C7_counterexample :
    (compute_period_exact 100 ⟨2024, 1, 1⟩ ⟨2024, 1, 31⟩ cpiTiny).map
        (fun r => r.2.map (fun sl => sl.factor)) = .ok [1] ∧
    (1 : ℚ) ≠ claimedFactor (20001/200) 31 31 := by
  constructor
  · rw [exact_tiny]
    rfl
  · unfold claimedFactor
    norm_num

/-- Claim C7, amended: compute_month_factor implements exactly
1 + (cpi/100 - 1) * proportion for every CPI value; in
compute_period_exact every breakdown row carries the table's CPI value of
its month, the day count of the claimed start/end rule, and the factor
1 + (monthly_factor cpi - 1) * (days/dim), where monthly_factor quantizes
cpi/100 to 4 decimal places (half-even) first — the claimed unquantized
formula holds exactly whenever that quantization is exact, and a full
interior month applies the quantized CPI factor unscaled. -/
theorem claim_C7 :
    (∀ v prop : ℚ, compute_month_factor v prop = 1 + (v / 100 - 1) * prop) ∧
    (∀ (amount : ℚ) (s e : Date) (cpi : CpiMap) (t : ℚ) (sl : List MonthSlice),
      compute_period_exact amount s e cpi = .ok (t, sl) → ∀ x ∈ sl, sliceWF cpi s e x) := by
  constructor
  · intro v prop
    unfold compute_month_factor
    ring
  · intro amount s e cpi t sl hok
    unfold compute_period_exact at hok
    split_ifs at hok with hg
    · simp only [Except.ok.injEq, Prod.mk.injEq] at hok
      rw [← hok.2]
      intro x hx
      exact absurd hx (List.not_mem_nil x)
    · obtain ⟨newSl, hsl, hall⟩ := loopExact_slices cpi s e _ _ _ _ _ _ _ _ hok
      intro x hx
      refine hall x ?_
      rw [hsl] at hx
      simpa using hx

/-- Claim C7, witness: the amended statement applied to the single slice
of the concrete full-month run with CPI 100.84. -/
theorem claim_C7_witness :
    sliceWF cpi84 ⟨2024, 1, 1⟩ ⟨2024, 1, 31⟩
      ⟨2024, 1, 31, 31, 10084/100, 10084/10000, 84⟩ :=
  claim_C7.2 10000 ⟨2024, 1, 1⟩ ⟨2024, 1, 31⟩ cpi84 84 _ exact_84 _ (by simp)

/-- Claim C8: amount 10000.00 over the single full month January 2024 with
CPI 100.84 yields increment exactly 84.00, the breakdown being one slice
with that increment; compute_period_indexation returns the same 84.00. -/
theorem claim_C8 :
    (compute_period_exact 10000 ⟨2024, 1, 1⟩ ⟨2024, 1, 31⟩ cpi84).map
        (fun r => (r.1, r.2.map (fun sl => sl.increment))) = .ok (84, [84]) ∧
    compute_period_indexation 10000 ⟨2024, 1, 1⟩ ⟨2024, 1, 31⟩ cpi84 = .ok 84 := by
  constructor
  · rw [exact_84]
    rfl
  · exact indexation_84

/-- Claim C9, counterexample: with two qualifying payments on the same
date 2024-01-15, the second emitted Period runs from 2024-01-16 to
2024-01-15: period_start <= period_end fails, so the claimed invariant is
false as stated. -/
theorem claim_C9_counterexample :
    (compute_debt_periods ⟨2024, 1, 1⟩ 100 paysTwin cpiFlat ⟨2024, 1, 31⟩).map
        (fun ps => ps.map (fun p => (p.period_start, p.period_end))) =
      .ok [(⟨2024, 1, 1⟩, ⟨2024, 1, 15⟩), (⟨2024, 1, 16⟩, ⟨2024, 1, 15⟩),
           (⟨2024, 1, 16⟩, ⟨2024, 1, 31⟩)] ∧
    ¬(⟨2024, 1, 16⟩ : Date) ≤ ⟨2024, 1, 15⟩ := by
  constructor
  · rw [debt_eval9]
    rfl
  · decide

/-- Claim C9, amended: when the qualifying payments have pairwise distinct
valid dates on or after order_date, and order_date <= cutoff_date (cutoff
valid), every returned Period satisfies period_start <= period_end and
debt_after_payment = debt_before - payment_amount, consecutive Periods
are contiguous (each next start is the day after the previous end, the
previous payment date), the first Period starts at order_date, and the
last Period either ends at cutoff_date or closes with non-positive
remaining debt (a fully repaid case emits no tail, so coverage stops at
the last payment date). -/
theorem claim_C9 (order_date : Date) (base_amount : ℚ) (payments : List Payment)
    (cpi : CpiMap) (cutoff_date : Date) (res : List Period)
    (hcv : cutoff_date.valid) (hoc : order_date ≤ cutoff_date)
    (hnd : (payments.map (fun p => p.date)).Nodup)
    (hpay : ∀ p ∈ payments, order_date ≤ p.date ∧ p.date.valid)
    (hok : compute_debt_periods order_date base_amount payments cpi cutoff_date = .ok res) :
    res ≠ [] ∧
    (∀ p ∈ res, p.period_start ≤ p.period_end ∧
      p.debt_after_payment = p.debt_before - p.payment_amount) ∧
    List.Chain' (fun a b => b.period_start = nextDay a.period_end) res ∧
    (∀ p0, res.head? = some p0 → p0.period_start = order_date) ∧
    (∃ plast, res.getLast? = some plast ∧
      (plast.period_end = cutoff_date ∨ plast.debt_after_payment ≤ 0)) := by
  unfold compute_debt_periods at hok
  dsimp only at hok
  have hmemq : ∀ q ∈ sortPays (payments.filter (qualifies cutoff_date)),
      order_date ≤ q.date ∧ q.date ≤ cutoff_date ∧ q.date.valid := by
    intro q hq
    have hq1 : q ∈ payments.filter (qualifies cutoff_date) :=
      (sortPays_perm _).mem_iff.mp hq
    have hq2 := List.mem_filter.mp hq1
    have hq3 := hpay q hq2.1
    have hq4 : q.date ≤ cutoff_date := by
      have hb := hq2.2
      unfold qualifies at hb
      simp only [Bool.and_eq_true, decide_eq_true_eq] at hb
      exact hb.1
    exact ⟨hq3.1, hq4, hq3.2⟩
  have hpw : List.Pairwise (fun a b : Payment => a.date < b.date)
      (sortPays (payments.filter (qualifies cutoff_date))) := by
    have hle := sortPays_sorted (payments.filter (qualifies cutoff_date))
    have hndq : ((sortPays (payments.filter (qualifies cutoff_date))).map
        (fun p => p.date)).Nodup := by
      have hsub : (payments.filter (qualifies cutoff_date)).Sublist payments :=
        List.filter_sublist _
      have hnd1 : ((payments.filter (qualifies cutoff_date)).map
          (fun p => p.date)).Nodup := (hsub.map _).nodup hnd
      exact (((sortPays_perm _).map _).nodup_iff).mpr hnd1
    have hne : List.Pairwise (fun a b : Payment => a.date ≠ b.date)
        (sortPays (payments.filter (qualifies cutoff_date))) :=
      List.pairwise_map.mp hndq
    exact (hle.and hne).imp (fun h => Date.lt_of_le_of_ne h.1 h.2)
  cases hpays : sortPays (payments.filter (qualifies cutoff_date)) with
  | nil =>
    rw [hpays] at hok
    dsimp only at hok
    cases hcpi : compute_period_indexation base_amount order_date cutoff_date cpi with
    | error err => rw [hcpi] at hok; exact absurd hok (by simp)
    | ok ind =>
      rw [hcpi] at hok
      simp only [Except.ok.injEq] at hok
      subst hok
      refine ⟨by simp, ?_, List.chain'_singleton _, ?_, ?_⟩
      · intro p hp
        simp only [List.mem_singleton] at hp
        subst hp
        exact ⟨hoc, by simp⟩
      · intro p0 h0
        simp only [List.head?_cons, Option.some.injEq] at h0
        subst h0
        rfl
      · exact ⟨_, List.getLast?_singleton _, Or.inl rfl⟩
  | cons p rest =>
    rw [hpays] at hok
    dsimp only at hok
    rw [hpays] at hmemq hpw
    obtain ⟨newPs, hres, hper, hchain, hhead, hlast⟩ :=
      debtLoop_invariants cpi cutoff_date hcv (p :: rest) base_amount order_date [] res
        hoc hmemq hpw hok
    rw [List.nil_append] at hres
    subst hres
    rcases hlast with ⟨hnil, hrem0, habs⟩ | ⟨plast, hpl, hd⟩
    · exact absurd habs (by simp)
    · refine ⟨?_, hper, hchain, hhead, ⟨plast, hpl, hd⟩⟩
      intro hempty
      rw [hempty] at hpl
      simp at hpl

/-- Claim C9, witness: the amended statement applied to the concrete
overshoot run (distinct payment dates, full repayment before cutoff). -/
theorem claim_C9_witness :
    ([(⟨⟨2024, 1, 1⟩, ⟨2024, 1, 5⟩, 100, some ⟨2024, 1, 5⟩, 100, 0, 0⟩ : Period),
      ⟨⟨2024, 1, 6⟩, ⟨2024, 1, 20⟩, 0, some ⟨2024, 1, 20⟩, 50, -50, 0⟩] ≠ []) ∧
    (∀ p ∈ [(⟨⟨2024, 1, 1⟩, ⟨2024, 1, 5⟩, 100, some ⟨2024, 1, 5⟩, 100, 0, 0⟩ : Period),
        ⟨⟨2024, 1, 6⟩, ⟨2024, 1, 20⟩, 0, some ⟨2024, 1, 20⟩, 50, -50, 0⟩],
      p.period_start ≤ p.period_end ∧
      p.debt_after_payment = p.debt_before - p.payment_amount) ∧
    List.Chain' (fun a b => b.period_start = nextDay a.period_end)
      [(⟨⟨2024, 1, 1⟩, ⟨2024, 1, 5⟩, 100, some ⟨2024, 1, 5⟩, 100, 0, 0⟩ : Period),
       ⟨⟨2024, 1, 6⟩, ⟨2024, 1, 20⟩, 0, some ⟨2024, 1, 20⟩, 50, -50, 0⟩] ∧
    (∀ p0, ([(⟨⟨2024, 1, 1⟩, ⟨2024, 1, 5⟩, 100, some ⟨2024, 1, 5⟩, 100, 0, 0⟩ : Period),
        ⟨⟨2024, 1, 6⟩, ⟨2024, 1, 20⟩, 0, some ⟨2024, 1, 20⟩, 50, -50, 0⟩]).head? = some p0 →
      p0.period_start = ⟨2024, 1, 1⟩) ∧
    (∃ plast, ([(⟨⟨2024, 1, 1⟩, ⟨2024, 1, 5⟩, 100, some ⟨2024, 1, 5⟩, 100, 0, 0⟩ : Period),
        ⟨⟨2024, 1, 6⟩, ⟨2024, 1, 20⟩, 0, some ⟨2024, 1, 20⟩, 50, -50, 0⟩]).getLast? =
          some plast ∧
      (plast.period_end = ⟨2024, 1, 31⟩ ∨ plast.debt_after_payment ≤ 0)) :=
  claim_C9 ⟨2024, 1, 1⟩ 100 paysOvershoot cpiFlat ⟨2024, 1, 31⟩ _ (by decide) (by decide)
    (by decide)
    (by
      intro p hp
      unfold paysOvershoot at hp
      rcases List.mem_cons.mp hp with hp | hp
      · subst hp
        exact ⟨by decide, by decide⟩
      · simp only [List.mem_singleton] at hp
        subst hp
        exact ⟨by decide, by decide⟩)
    debt_eval4

/-- Claim C10, counterexample: on amount 66.67 over January and February
2024 with CPI 100.1 in both months, compute_period_exact returns total
increment 0.14 (rounding the running amount each month) while
compute_period_indexation returns 0.13 (one final rounding): the two
computations are not equivalent in general. -/
theorem claim_C10_counterexample :
    (compute_period_exact (6667/100) ⟨2024, 1, 1⟩ ⟨2024, 2, 29⟩ cpiTwo).map Prod.fst =
      .ok (14/100) ∧
    compute_period_indexation (6667/100) ⟨2024, 1, 1⟩ ⟨2024, 2, 29⟩ cpiTwo = .ok (13/100) ∧
    ((14 : ℚ)/100) ≠ 13/100 :=
  ⟨exact_6667, indexation_6667, by norm_num⟩

/-- Claim C10, amended: the two computations agree on single-month spans
when the amount is a positive 2-decimal value and the month's CPI value is
at least 100 and survives the 4-decimal quantization of monthly_factor
exactly; on multi-month spans they may differ by rounding. -/
theorem claim_C10 (amount v : ℚ) (k : ℤ) (s e : Date) (cpi : CpiMap)
    (hk : amount = (k : ℚ) / 100) (ha : 0 < amount)
    (hy : s.year = e.year) (hm : s.month = e.month) (hd : s.day ≤ e.day)
    (hcl : cpiLookup cpi s.year s.month = some v)
    (hqv : monthly_factor v = v / 100) (hv : 100 ≤ v) :
    (compute_period_exact amount s e cpi).map Prod.fst =
      compute_period_indexation amount s e cpi :=
  exact_eq_indexation_single amount v k s e cpi hk ha hy hm hd hcl hqv hv

/-- Claim C10, witness: the amended statement applied to the full-month
run with amount 100.00 and CPI 100.84. -/
theorem claim_C10_witness :
    (compute_period_exact 100 ⟨2024, 1, 1⟩ ⟨2024, 1, 31⟩ cpi84).map Prod.fst =
      compute_period_indexation 100 ⟨2024, 1, 1⟩ ⟨2024, 1, 31⟩ cpi84 :=
  claim_C10 100 (10084/100) 10000 ⟨2024, 1, 1⟩ ⟨2024, 1, 31⟩ cpi84
    (by norm_num) (by norm_num) rfl rfl (by decide)
    (by
      unfold cpi84 cpiLookup
      rw [if_pos rfl])
    (by rw [mf_84]; norm_num) (by norm_num)
